import Mathlib

/-!
Verification development for the competitor-research pipeline
(`src/companies/views.py`, `src/competitor_research/supabase_service.py`,
`src/competitor_research/openai_service.py`).

The Python code is shallowly embedded: pure helpers become Lean functions,
the Supabase-backed persistence layer becomes explicit state passing over a
table model, exceptions become `Except String`, and Python's `json.loads`
becomes an executable recursive-descent JSON reader over `List Char`.
-/

namespace CompRes

deriving instance DecidableEq for Except

/-! ## Character and string utilities

Python's `str.strip()` whitespace set (ASCII part), JSON's whitespace set,
lowercasing, substring search.  All operate on `List Char`.
-/

/-- Whitespace stripped by Python `str.strip()` (ASCII portion):
space, tab, newline, carriage return, vertical tab, form feed. -/
def isPyWs (c : Char) : Bool :=
  c = ' ' || c = '\t' || c = '\n' || c = '\r' || c = '\x0b' || c = '\x0c'

/-- Whitespace accepted between tokens by Python `json.loads`:
space, tab, newline, carriage return. -/
def isJsonWs (c : Char) : Bool :=
  c = ' ' || c = '\t' || c = '\n' || c = '\r'

/-- Embedding of Python `str.strip()` (no arguments): drop leading and
trailing whitespace. -/
def pyStripL (cs : List Char) : List Char :=
  ((cs.dropWhile isPyWs).reverse.dropWhile isPyWs).reverse

/-- String version of `pyStripL`. -/
def pyStrip (s : String) : String := ⟨pyStripL s.data⟩

/-- Embedding of Python `str.lower()` (ASCII-relevant part). -/
def toLowerL (cs : List Char) : List Char := cs.map Char.toLower

/-- Index of the first occurrence of character `c`, if any. -/
def idxOfL (c : Char) : List Char → Option Nat
  | [] => none
  | d :: rest => if d = c then some 0 else (idxOfL c rest).map (· + 1)

/-- Index (in the whole list) of the first occurrence of `c` at position
`≥ p`. -/
def idxFromL (c : Char) (p : Nat) (cs : List Char) : Option Nat :=
  (idxOfL c (cs.drop p)).map (p + ·)

/-- The contiguous slice of `cs` starting at index `i` with length `len`
(the embedding of a Python string slice `s[i:i+len]`). -/
def subL (cs : List Char) (i len : Nat) : List Char := (cs.drop i).take len

/-- Character of `cs` at index `i`, or the null character when out of
range. -/
def charAt (cs : List Char) (i : Nat) : Char := cs.getD i '\x00'

/-- Does `pat` occur as a prefix of `cs`? -/
def startsL (pat cs : List Char) : Bool := decide (cs.take pat.length = pat)

/-- Fuel-driven worker for `findCIFrom`; the fuel only bounds the number
of scanned positions and `findCIFrom` always supplies enough. -/
def findCIFromF : Nat → List Char → List Char → Nat → Option Nat
  | 0, needle, _, p => if needle = [] then some p else none
  | fuel + 1, needle, cs, p =>
    if p ≥ cs.length then
      if needle = [] then some p else none
    else
      if startsL (toLowerL needle) (toLowerL (cs.drop p)) then some p
      else findCIFromF fuel needle cs (p + 1)

/-- First index `≥ p` at which `needle` occurs in `cs` case-insensitively
(the embedding of a case-insensitive literal search, as produced by
`re.IGNORECASE`). -/
def findCIFrom (needle : List Char) (cs : List Char) (p : Nat) : Option Nat :=
  findCIFromF (cs.length + 1 - p) needle cs p

/-- Does `sub` occur anywhere in `cs` (case-sensitive)? Embedding of
Python's `sub in s`. -/
def containsL (cs sub : List Char) : Bool :=
  (List.range (cs.length + 1)).any (fun i => startsL sub (cs.drop i))

/-! ## JSON values

The value domain of Python `json.loads`: null, booleans, numbers, strings,
arrays and objects.  Objects keep the insertion-order / last-write-wins
semantics of Python dicts (duplicate keys in the source text overwrite the
value in place).  Numbers are kept as their source lexeme: none of the code
under verification ever inspects a parsed numeric value (arrays are kept
wholesale), so the lexeme is a faithful representation for every use below.
-/

mutual
inductive Json where
  | null : Json
  | bool (b : Bool) : Json
  | num (lexeme : String) : Json
  | str (s : String) : Json
  | arr (elems : JsonList) : Json
  | obj (fields : JsonFields) : Json
  deriving DecidableEq
inductive JsonList where
  | nil : JsonList
  | cons (head : Json) (tail : JsonList) : JsonList
  deriving DecidableEq
inductive JsonFields where
  | nil : JsonFields
  | cons (key : String) (value : Json) (tail : JsonFields) : JsonFields
  deriving DecidableEq
end

/-- Append one element at the end of a `JsonList`. -/
def JsonList.snoc : JsonList → Json → JsonList
  | .nil, v => .cons v .nil
  | .cons h t, v => .cons h (t.snoc v)

/-- Convert a `JsonList` to a Lean list. -/
def JsonList.toList : JsonList → List Json
  | .nil => []
  | .cons h t => h :: t.toList

/-- Length of a `JsonList` (Python `len` on a parsed array). -/
def JsonList.length : JsonList → Nat
  | .nil => 0
  | .cons _ t => t.length + 1

/-- Insert a key into a dict the way Python does while `json.loads` builds
an object: an existing key keeps its position and gets the new value, a new
key is appended at the end. -/
def dictInsert : JsonFields → String → Json → JsonFields
  | .nil, k, v => .cons k v .nil
  | .cons k' v' t, k, v =>
      if k' = k then .cons k' v t else .cons k' v' (dictInsert t k v)

/-- Look a key up in a dict (Python `d[k]` / `k in d`). -/
def dictFind? : JsonFields → String → Option Json
  | .nil, _ => none
  | .cons k' v t, k => if k' = k then some v else dictFind? t k

/-- Python `d.get(k, default)`. -/
def dictGetD (d : JsonFields) (k : String) (default : Json) : Json :=
  (dictFind? d k).getD default

/-- Python `k in d`. -/
def dictHasKey (d : JsonFields) (k : String) : Bool :=
  (dictFind? d k).isSome

/-- The keys of a dict in insertion order (Python `d.keys()`). -/
def dictKeys : JsonFields → List String
  | .nil => []
  | .cons k _ t => k :: dictKeys t

/-- Is this value a JSON array?  Embedding of Python
`isinstance(x, list)` on a `json.loads` result. -/
def Json.isArr : Json → Bool
  | .arr _ => true
  | _ => false

/-- Extract the element list of an array value (used only after
`Json.isArr` has been checked). -/
def Json.asArr : Json → JsonList
  | .arr xs => xs
  | _ => .nil

/-! ## The JSON reader (embedding of `json.loads`)

A recursive-descent reader over `List Char` following the JSON grammar that
CPython's `json` module accepts: optional whitespace between tokens,
double-quoted strings with the standard escapes and no raw control
characters, numbers `-?(0|[1-9][0-9]*)(.[0-9]+)?([eE][+-]?[0-9]+)?`,
`true` / `false` / `null`, arrays and objects.  `parseVal` is driven by a
fuel parameter that only bounds nesting depth; `jsonLoadsL` supplies
`length + 1`, which is always sufficient because each nesting level
consumes at least one character. -/

/-- Drop JSON inter-token whitespace. -/
def skipWsL (cs : List Char) : List Char := cs.dropWhile isJsonWs

/-- Hex digit value, if any. -/
def hexVal (c : Char) : Option Nat :=
  if '0' ≤ c ∧ c ≤ '9' then some (c.toNat - '0'.toNat)
  else if 'a' ≤ c ∧ c ≤ 'f' then some (c.toNat - 'a'.toNat + 10)
  else if 'A' ≤ c ∧ c ≤ 'F' then some (c.toNat - 'A'.toNat + 10)
  else none

/-- Read the body of a JSON string literal after the opening quote; returns
the decoded characters and the remainder after the closing quote. -/
def parseStringChars : List Char → Option (List Char × List Char)
  | [] => none
  | c :: rest =>
    if c = '"' then some ([], rest)
    else if c = '\\' then
      match rest with
      | [] => none
      | e :: r2 =>
        if e = 'u' then
          match r2 with
          | h1 :: h2 :: h3 :: h4 :: r3 =>
            match hexVal h1, hexVal h2, hexVal h3, hexVal h4 with
            | some a, some b, some c', some d =>
              (parseStringChars r3).map
                (fun p => (Char.ofNat (((a * 16 + b) * 16 + c') * 16 + d) :: p.1, p.2))
            | _, _, _, _ => none
          | _ => none
        else
          let dec : Option Char :=
            if e = '"' then some '"'
            else if e = '\\' then some '\\'
            else if e = '/' then some '/'
            else if e = 'b' then some '\x08'
            else if e = 'f' then some '\x0c'
            else if e = 'n' then some '\n'
            else if e = 'r' then some '\r'
            else if e = 't' then some '\t'
            else none
          match dec with
          | none => none
          | some d => (parseStringChars r2).map (fun p => (d :: p.1, p.2))
    else if c.toNat < 0x20 then none
    else (parseStringChars rest).map (fun p => (c :: p.1, p.2))

/-- Read a JSON string literal (including the opening quote). -/
def parseStringLit : List Char → Option (String × List Char)
  | '"' :: rest => (parseStringChars rest).map (fun p => (⟨p.1⟩, p.2))
  | _ => none

/-- Longest prefix of decimal digits. -/
def takeDigits (cs : List Char) : List Char × List Char :=
  (cs.takeWhile Char.isDigit, cs.dropWhile Char.isDigit)

/-- Read a JSON number lexeme starting at the head of `cs`. -/
def parseNumberLex (cs : List Char) : Option (List Char × List Char) :=
  let (sign, r1) := match cs with
    | '-' :: r => (['-'], r)
    | r => (([] : List Char), r)
  match r1 with
  | [] => none
  | d :: _ =>
    if ¬ d.isDigit then none
    else
      let (ip, r2) := takeDigits r1
      -- JSON forbids leading zeros: "0" alone or a nonzero first digit.
      if ip.length > 1 ∧ charAt ip 0 = '0' then none
      else
        let (fp, r3) : List Char × List Char :=
          match r2 with
          | '.' :: rf =>
            let (ds, r') := takeDigits rf
            if ds = [] then (['!'], rf) else ('.' :: ds, r')
          | _ => ([], r2)
        if fp = ['!'] then none
        else
          let (ep, r4) : List Char × List Char :=
            match r3 with
            | 'e' :: re =>
              (match re with
               | s :: re2 =>
                 if s = '+' ∨ s = '-' then
                   let (ds, r') := takeDigits re2
                   if ds = [] then (['!'], re) else ('e' :: s :: ds, r')
                 else
                   let (ds, r') := takeDigits re
                   if ds = [] then (['!'], re) else ('e' :: ds, r')
               | [] => (['!'], re))
            | 'E' :: re =>
              (match re with
               | s :: re2 =>
                 if s = '+' ∨ s = '-' then
                   let (ds, r') := takeDigits re2
                   if ds = [] then (['!'], re) else ('E' :: s :: ds, r')
                 else
                   let (ds, r') := takeDigits re
                   if ds = [] then (['!'], re) else ('E' :: ds, r')
               | [] => (['!'], re))
            | _ => ([], r3)
          if ep = ['!'] then none
          else some (sign ++ ip ++ fp ++ ep, r4)

mutual

/-- Read one JSON value (fuel bounds nesting depth only). -/
def parseVal : Nat → List Char → Option (Json × List Char)
  | 0, _ => none
  | fuel + 1, cs =>
    match skipWsL cs with
    | [] => none
    | c :: rest =>
      if c = '{' then
        match skipWsL rest with
        | '}' :: r2 => some (.obj .nil, r2)
        | r2 => parseMembers fuel r2 .nil
      else if c = '[' then
        match skipWsL rest with
        | ']' :: r2 => some (.arr .nil, r2)
        | r2 => parseElems fuel r2 .nil
      else if c = '"' then
        (parseStringLit (c :: rest)).map (fun p => (.str p.1, p.2))
      else if startsL ['t', 'r', 'u', 'e'] (c :: rest) then
        some (.bool true, (c :: rest).drop 4)
      else if startsL ['f', 'a', 'l', 's', 'e'] (c :: rest) then
        some (.bool false, (c :: rest).drop 5)
      else if startsL ['n', 'u', 'l', 'l'] (c :: rest) then
        some (.null, (c :: rest).drop 4)
      else
        (parseNumberLex (c :: rest)).map (fun p => (.num ⟨p.1⟩, p.2))

/-- Read the members of an object after a first non-`}` token. -/
def parseMembers : Nat → List Char → JsonFields → Option (Json × List Char)
  | 0, _, _ => none
  | fuel + 1, cs, acc =>
    match parseStringLit (skipWsL cs) with
    | none => none
    | some (k, r1) =>
      match skipWsL r1 with
      | ':' :: r2 =>
        match parseVal fuel r2 with
        | none => none
        | some (v, r3) =>
          let acc' := dictInsert acc k v
          match skipWsL r3 with
          | ',' :: r4 => parseMembers fuel r4 acc'
          | '}' :: r4 => some (.obj acc', r4)
          | _ => none
      | _ => none

/-- Read the elements of an array after a first non-`]` token. -/
def parseElems : Nat → List Char → JsonList → Option (Json × List Char)
  | 0, _, _ => none
  | fuel + 1, cs, acc =>
    match parseVal fuel cs with
    | none => none
    | some (v, r1) =>
      let acc' := acc.snoc v
      match skipWsL r1 with
      | ',' :: r2 => parseElems fuel r2 acc'
      | ']' :: r2 => some (.arr acc', r2)
      | _ => none

end

/-- Embedding of Python `json.loads` on a character list: one value with
optional surrounding whitespace, nothing else. -/
def jsonLoadsL (cs : List Char) : Option Json :=
  match parseVal (cs.length + 1) cs with
  | some (v, rest) => if skipWsL rest = [] then some v else none
  | none => none

/-- Embedding of Python `json.loads` on a string. -/
def jsonLoads (s : String) : Option Json := jsonLoadsL s.data

/-! ## Regex-search embeddings

`views.py` uses four text-search devices on the raw model output:

1. `re.search(r'\[[\s\S]*?\]', text)` — leftmost `[`, then the lazy
   quantifier stops at the first later `]`.  Since any `]` occurring after
   a later `[` also occurs after the first one, the leftmost match starts
   at the first `[` of the text and ends at the first `]` after it.
2. fenced-code-block patterns such as
   ``` ```(?:json)?\s*(\[[\s\S]*?\])\s*``` ``` with `re.IGNORECASE`:
   leftmost start wins; after the backticks the optional `json` tag is
   consumed when literally present (consuming it can never turn a failure
   into a success or vice versa because `j` matches neither `\s` nor the
   opening bracket), `\s*` is deterministic (a bracket is not whitespace),
   and the lazy group stops at the first closing bracket that is followed
   by `\s*` and three backticks.
3. a hand-written brace-matching scan (depth counter, `views.py:552-594`).
4. lazy chains `\{[\s\S]*?k1[\s\S]*?k2[\s\S]*?k3[\s\S]*?\}` with
   `re.IGNORECASE`: leftmost `{` from which the chain completes; each lazy
   gap takes the earliest occurrence (taking a later one can never make a
   failing chain succeed, so the earliest chain is the regex backtracking
   result).
-/

/-- Strategy 1 of `parse_competitors_response`: the span matched by
`re.search(r'\[[\s\S]*?\]', text)`, as a slice of the text. -/
def firstArraySpan (cs : List Char) : Option (List Char) :=
  match idxOfL '[' cs with
  | none => none
  | some i =>
    match idxFromL ']' (i + 1) cs with
    | none => none
    | some j => some (subL cs i (j + 1 - i))

/-- Position after the optional case-insensitive `json` tag of the fenced
pattern (consumed when literally present). -/
def fencedTagEnd (allowTag : Bool) (cs : List Char) (q : Nat) : Nat :=
  if allowTag ∧ startsL ['j', 's', 'o', 'n'] (toLowerL (cs.drop q)) then q + 4 else q

/-- Position after the `\s*` run that follows the backticks and tag. -/
def fencedWsEnd (cs : List Char) (q : Nat) : Nat :=
  q + ((cs.drop q).takeWhile isPyWs).length

/-- Start position of the captured group for a fenced match at `p`. -/
def fencedStart (allowTag : Bool) (cs : List Char) (p : Nat) : Nat :=
  fencedWsEnd cs (fencedTagEnd allowTag cs (p + 3))

/-- Step of the fenced-pattern search: does the full fenced pattern match
starting exactly at position `p` (which must carry the three opening
backticks)?  Returns the captured group (the bracket span): the lazy group
ends at the first closing bracket that is followed by `\s*` and three
backticks. -/
def fencedAt (opn cls : Char) (allowTag : Bool) (cs : List Char) (p : Nat) :
    Option (List Char) :=
  if startsL ['`', '`', '`'] (cs.drop p) then
    if charAt cs (fencedStart allowTag cs p) = opn ∧ fencedStart allowTag cs p < cs.length then
      match (List.range' (fencedStart allowTag cs p + 1) (cs.length - fencedStart allowTag cs p)).find?
          (fun j => charAt cs j = cls ∧
            startsL ['`', '`', '`']
              ((cs.drop (j + 1)).dropWhile isPyWs)) with
      | some j => some (subL cs (fencedStart allowTag cs p) (j + 1 - fencedStart allowTag cs p))
      | none => none
    else none
  else none

/-- Leftmost match of a fenced-code-block pattern; returns the captured
bracket span. -/
def fencedSearch (opn cls : Char) (allowTag : Bool) (cs : List Char) : Option (List Char) :=
  (List.range cs.length).findSome? (fun p => fencedAt opn cls allowTag cs p)

/-! The brace-matching scan of `parse_research_response`
(`views.py:552-594`), parameterized by the candidate test applied when a
top-level object closes.  `braceTop` is the state `start_idx == -1`
(`count` may be negative after stray closing braces, exactly as in the
Python code); `braceIn` is the state with an open candidate, carrying the
accumulated slice and the current positive depth. -/
mutual
def braceTop (tryCand : List Char → Option α) : List Char → Int → Option α
  | [], _ => none
  | c :: rest, count =>
    if c = '{' then
      if count = 0 then braceIn tryCand rest ['{'] 1
      else braceTop tryCand rest (count + 1)
    else if c = '}' then braceTop tryCand rest (count - 1)
    else braceTop tryCand rest count
def braceIn (tryCand : List Char → Option α) :
    List Char → List Char → Nat → Option α
  | [], _, _ => none
  | c :: rest, acc, depth =>
    if c = '{' then braceIn tryCand rest (acc ++ ['{']) (depth + 1)
    else if c = '}' then
      if depth = 1 then
        match tryCand (acc ++ ['}']) with
        | some r => some r
        | none => braceTop tryCand rest 0
      else braceIn tryCand rest (acc ++ ['}']) (depth - 1)
    else braceIn tryCand rest (acc ++ [c]) depth
end

/-- Complete the lazy chain of literal needles (case-insensitively) from
position `p`; returns the position just after the last needle. -/
def chainAfter (cs : List Char) (p : Nat) : List (List Char) → Option Nat
  | [] => some p
  | n :: rest =>
    match findCIFrom n cs p with
    | some q => chainAfter cs (q + n.length) rest
    | none => none

/-- Leftmost match of `\{[\s\S]*?n1[\s\S]*?…[\s\S]*?\}` (IGNORECASE):
scan opening braces left to right; from the first one whose chain
completes, the lazy tail stops at the first following `}`. -/
def lazyChainFind (cs : List Char) (needles : List (List Char)) : Option (List Char) :=
  (List.range cs.length).findSome? (fun i =>
    if charAt cs i = '{' then
      match chainAfter cs (i + 1) needles with
      | some q =>
        match idxFromL '}' q cs with
        | some j => some (subL cs i (j + 1 - i))
        | none => none
      | none => none
    else none)

/-! ## Python `str()` on parsed JSON values

`parse_competitors_response` applies `str(...)` to the `name` and `url`
fields, which is the identity on strings.  For non-string values Python
renders `None`, `True`/`False`, the numeric value, or the `repr` of a
container.  The container/float renderings below are simplified (`repr`
string-escaping and float formatting are not reproduced); no theorem in
this file evaluates `pyStr` on those constructors. -/

mutual
def pyStr : Json → String
  | .null => "None"
  | .bool true => "True"
  | .bool false => "False"
  | .num lex => lex
  | .str s => s
  | .arr xs => "[" ++ pyStrList xs ++ "]"
  | .obj fs => "\x7b" ++ pyStrFields fs ++ "\x7d"
def pyStrList : JsonList → String
  | .nil => ""
  | .cons h .nil => pyStr h
  | .cons h t => pyStr h ++ ", " ++ pyStrList t
def pyStrFields : JsonFields → String
  | .nil => ""
  | .cons k v .nil => "'" ++ k ++ "': " ++ pyStr v
  | .cons k v t => "'" ++ k ++ "': " ++ pyStr v ++ ", " ++ pyStrFields t
end

/-! ## The Response Extractor (`views.py:454-629`) -/

/-- One parsed competitor candidate: the two-key dict built by the cleaning
loop of `parse_competitors_response`. -/
structure Candidate where
  name : String
  url : String
  deriving DecidableEq

/-- The cleaning loop of `parse_competitors_response` (`views.py:474-481`
and its verbatim copy at 494-500): keep dict items that contain both a
`name` and a `url` key, stringify and strip both values. -/
def cleanLoop : JsonList → List Candidate
  | .nil => []
  | .cons comp rest =>
    match comp with
    | .obj fs =>
      match dictFind? fs "name", dictFind? fs "url" with
      | some n, some u =>
        ⟨pyStrip (pyStr n), pyStrip (pyStr u)⟩ :: cleanLoop rest
      | _, _ => cleanLoop rest
    | _ => cleanLoop rest

/-- Embedding of `parse_competitors_response` (`views.py:454-507`): first
the lazy bracket-span search, then the fenced-code-block fallback; a
candidate that fails `json.loads` falls through, a parsed non-list (which
cannot occur, since every candidate starts with `[`) also falls through,
and when everything fails the result is the empty list. -/
def parse_competitors_response (s : String) : List Candidate :=
  let cs := s.data
  let fenced : List Candidate :=
    match fencedSearch '[' ']' true cs with
    | some cand =>
      match jsonLoadsL cand with
      | some (.arr xs) => cleanLoop xs
      | _ => []
    | none => []
  match firstArraySpan cs with
  | some cand =>
    match jsonLoadsL cand with
    | some (.arr xs) => cleanLoop xs
    | _ => fenced
  | none => fenced

/-- The research mapping assembled by `parse_research_response`: the three
time-series arrays. -/
structure ResearchData where
  networth : JsonList
  users : JsonList
  funding : JsonList
  deriving DecidableEq

/-- Key resolution of `parse_research_response` (`views.py:532-543` and its
copies): exact key first, then the first key (in insertion order) whose
`lower()` equals the expected key, defaulting to an empty list. -/
def resolveKey (d : JsonFields) (key : String) : Json :=
  match dictFind? d key with
  | some v => v
  | none =>
    match (dictKeys d).find? (fun k => ⟨toLowerL k.data⟩ = key) with
    | some k => dictGetD d k (.arr .nil)
    | none => .arr .nil

/-- The build-and-validate step shared by all three strategies of
`parse_research_response`: resolve the three expected keys and accept only
if all three resolve to lists (`views.py:531-547`). -/
def buildFromDict (d : JsonFields) : Option ResearchData :=
  let n := resolveKey d "networth"
  let u := resolveKey d "users"
  let f := resolveKey d "funding"
  if n.isArr ∧ u.isArr ∧ f.isArr then some ⟨n.asArr, u.asArr, f.asArr⟩
  else none

/-- The `has_arrays` pre-filter of the brace-scan strategy
(`views.py:570-573`): `any(isinstance(research_data.get(k, []), list) for k
in [...])` over the six literal key spellings.  Note that `.get(k, [])`
returns the list default whenever `k` is absent, so a missing key already
satisfies the test. -/
def hasArrays (d : JsonFields) : Bool :=
  ["networth", "users", "funding", "Networth", "Users", "Funding"].any
    (fun k => (dictGetD d k (.arr .nil)).isArr)

/-- Candidate test used by the fenced strategy and the regex-pattern
strategy of `parse_research_response`: parse, require a dict, build and
validate. -/
def tryResearchCand (cand : List Char) : Option ResearchData :=
  match jsonLoadsL cand with
  | some (.obj d) => buildFromDict d
  | _ => none

/-- Candidate test used by the brace-scan strategy: parse, require a dict,
apply the `has_arrays` pre-filter, then build and validate. -/
def tryBraceCand (cand : List Char) : Option ResearchData :=
  match jsonLoadsL cand with
  | some (.obj d) => if hasArrays d then buildFromDict d else none
  | _ => none

/-- The needle lists of the three last-resort regex patterns
(`views.py:597-601`); matching is case-insensitive, so the first two
patterns differ only in spelling. -/
def patternNeedles : List (List (List Char)) :=
  [ [('"' :: "networth".data ++ ['"']), ('"' :: "users".data ++ ['"']),
     ('"' :: "funding".data ++ ['"'])],
    [('"' :: "Networth".data ++ ['"']), ('"' :: "Users".data ++ ['"']),
     ('"' :: "Funding".data ++ ['"'])],
    ["networth".data, "users".data, "funding".data] ]

/-- Embedding of `parse_research_response` (`views.py:510-629`): fenced
code blocks (two patterns), then the brace-matching scan, then the three
regex patterns; `None` when every strategy fails. -/
def parse_research_response (s : String) : Option ResearchData :=
  let cs := s.data
  let fencedTry (allowTag : Bool) : Option ResearchData :=
    match fencedSearch '\x7b' '\x7d' allowTag cs with
    | some cand => tryResearchCand cand
    | none => none
  match fencedTry true with
  | some r => some r
  | none =>
  match fencedTry false with
  | some r => some r
  | none =>
  match braceTop tryBraceCand cs 0 with
  | some r => some r
  | none =>
  (patternNeedles.findSome? (fun needles =>
    match lazyChainFind cs needles with
    | some cand => tryResearchCand cand
    | none => none))

/-! ## The Persistence Adapter (`src/competitor_research/supabase_service.py`)

The Supabase client is an external collaborator (spec section 1 / section 6);
it is modelled as pure operations over an explicit table state.  Inserts
into the three time-series tables surface the uniqueness-constraint
violation for `(company_id, year)` that the spec's persistence contract
requires (section 6: "must surface a structured or string-matchable
conflict indicator on uniqueness violations"): a PostgreSQL error with
structured code `23505` and a "duplicate key" message. -/

/-- One row of `company_networth` / `company_users` / `company_funding`.
The numeric payload is modelled as `Int`; none of the verified code
computes with it. -/
structure TSRow where
  company_id : String
  value : Int
  year : Int
  source_url : String
  deriving DecidableEq

/-- One row of the `companies` table.  `competitor_ids` is the optional
array column used by `update_company_competitor_ids`. -/
structure CompanyRow where
  id : String
  name : String
  website_url : Option String
  competitor_ids : List String
  deriving DecidableEq

/-- The backing store. `nextId` feeds generated primary keys. -/
structure DbSt where
  companies : List CompanyRow
  networth : List TSRow
  users : List TSRow
  funding : List TSRow
  nextId : Nat
  deriving DecidableEq

/-- The provider error object: an optional structured code plus the
message that Python's `str(e)` renders. -/
structure DbError where
  code : Option String
  message : String
  deriving DecidableEq

/-- The uniqueness-violation error surfaced by the store on a duplicate
`(company_id, year)` insert (PostgreSQL class 23505). -/
def duplicateKeyError : DbError :=
  ⟨some "23505", "duplicate key value violates unique constraint"⟩

/-- Insert into a time-series table: appends, or surfaces the conflict
error when a row for the same `(company_id, year)` exists. -/
def clientInsertTS (tbl : List TSRow) (row : TSRow) : Except DbError (List TSRow) :=
  if tbl.any (fun r => r.company_id = row.company_id ∧ r.year = row.year)
  then .error duplicateKeyError
  else .ok (tbl ++ [row])

/-- `update(...).eq('company_id', cid).eq('year', year)` on a time-series
table: rewrite value and source of every matching row; returns the new
table and the list of updated rows (the response data). -/
def clientUpdateTS (tbl : List TSRow) (cid : String) (year : Int)
    (value : Int) (src : String) : List TSRow × List TSRow :=
  let upd : TSRow → TSRow := fun r =>
    if r.company_id = cid ∧ r.year = year
    then { r with value := value, source_url := src } else r
  (tbl.map upd, (tbl.map upd).filter (fun r => r.company_id = cid ∧ r.year = year))

/-- The duplicate-key test of `create_company_networth` /
`create_company_users` (`supabase_service.py:284-299` and 362-377): the
error-code extraction chain (`e.message` dict, then `e.code`, then a dict
error) yields the structured code of our error object; the test is
`error_code == '23505' or '23505' in error_str or 'duplicate key' in
error_str.lower()`. -/
def isDuplicateErr (e : DbError) : Bool :=
  e.code = some "23505" || containsL e.message.data "23505".data ||
    containsL (toLowerL e.message.data) "duplicate key".data

/-- Embedding of `SupabaseService.create_company_networth`
(`supabase_service.py:260-314`): try the insert; on a duplicate-key error
update `value_usd` and `source_url` of the existing `(company_id, year)`
row instead and return it; re-raise any other error. -/
def create_company_networth (st : DbSt) (company_id : String)
    (value_usd : Int) (year : Int) (source_url : String) :
    Except String (Option TSRow × DbSt) :=
  let data : TSRow := ⟨company_id, value_usd, year, source_url⟩
  match clientInsertTS st.networth data with
  | .ok tbl => .ok (some data, { st with networth := tbl })
  | .error e =>
    if isDuplicateErr e then
      let (tbl, matched) := clientUpdateTS st.networth company_id year value_usd source_url
      .ok (matched.head?, { st with networth := tbl })
    else .error e.message

/-- Embedding of `SupabaseService.create_company_users`
(`supabase_service.py:338-392`): same duplicate-tolerant shape as
`create_company_networth`, over the `company_users` table. -/
def create_company_users (st : DbSt) (company_id : String)
    (value : Int) (year : Int) (source_url : String) :
    Except String (Option TSRow × DbSt) :=
  let data : TSRow := ⟨company_id, value, year, source_url⟩
  match clientInsertTS st.users data with
  | .ok tbl => .ok (some data, { st with users := tbl })
  | .error e =>
    if isDuplicateErr e then
      let (tbl, matched) := clientUpdateTS st.users company_id year value source_url
      .ok (matched.head?, { st with users := tbl })
    else .error e.message

/-- Embedding of `SupabaseService.create_company_funding`
(`supabase_service.py:212-236`): a plain insert; any error — including the
duplicate-key violation — is logged and re-raised, with no update
fallback. -/
def create_company_funding (st : DbSt) (company_id : String)
    (value_usd : Int) (year : Int) (source_url : String) :
    Except String (Option TSRow × DbSt) :=
  let data : TSRow := ⟨company_id, value_usd, year, source_url⟩
  match clientInsertTS st.funding data with
  | .ok tbl => .ok (some data, { st with funding := tbl })
  | .error e => .error e.message

/-- The rows of a time-series table for one `(company_id, year)` pair. -/
def rowsFor (tbl : List TSRow) (cid : String) (year : Int) : List TSRow :=
  tbl.filter (fun r => r.company_id = cid ∧ r.year = year)

/-- Uniqueness invariant maintained by the store's constraint: at most one
row per `(company_id, year)`. -/
def uniqTS (tbl : List TSRow) : Prop :=
  ∀ cid year, (rowsFor tbl cid year).length ≤ 1

/-! ## The Pipeline Orchestrator (`views.py:69-451`)

The generator functions are embedded as state-passing functions returning
the list of yielded events.  The Supabase service is a record of fallible
operations (so per-item fault isolation can be stated over every possible
store behavior); `realService` instantiates it with the table model above.
The generation capability is a fallible function of the prompt;
`RunSt.llmCalls` counts its invocations and `RunSt.updateCidCalls` records
every call of `update_company_competitor_ids` with its arguments. -/

/-- The Supabase operations used by the orchestrator, as fallible state
transformers.  `find_company_by_name` is the inline
`table('companies').select('*').eq('name', …).limit(1)` query of
`views.py:162`. -/
structure Service where
  get_company_by_url : String → DbSt → Except String (Option CompanyRow × DbSt)
  find_company_by_name : String → DbSt → Except String (Option CompanyRow × DbSt)
  create_company : String → Option String → DbSt → Except String (Option CompanyRow × DbSt)
  update_company : String → Option String → Option String → DbSt →
    Except String (Option CompanyRow × DbSt)
  update_company_competitor_ids : String → List String → DbSt →
    Except String (Option CompanyRow × DbSt)
  get_competitors_by_ids : List String → DbSt → Except String (List CompanyRow × DbSt)

/-- The concrete service over the table model, implementing
`supabase_service.py` (`eq`-filter lookups return the first match in table
order; `create_company` omits the URL when it is falsy; the update
operations rewrite matching rows and return the first updated row). -/
def realService : Service where
  get_company_by_url := fun url db =>
    .ok (db.companies.find? (fun c => c.website_url = some url), db)
  find_company_by_name := fun nm db =>
    .ok (db.companies.find? (fun c => c.name = nm), db)
  create_company := fun nm url? db =>
    let wid : Option String :=
      match url? with | some u => if u = "" then none else some u | none => none
    let row : CompanyRow := ⟨"cid" ++ toString db.nextId, nm, wid, []⟩
    .ok (some row, { db with companies := db.companies ++ [row], nextId := db.nextId + 1 })
  update_company := fun id nm? url? db =>
    let upd : CompanyRow → CompanyRow := fun c =>
      if c.id = id then
        { c with name := nm?.getD c.name,
                 website_url := match url? with | some u => some u | none => c.website_url }
      else c
    let cos := db.companies.map upd
    .ok (cos.find? (fun c => c.id = id), { db with companies := cos })
  update_company_competitor_ids := fun id ids db =>
    let upd : CompanyRow → CompanyRow := fun c =>
      if c.id = id then { c with competitor_ids := ids } else c
    let cos := db.companies.map upd
    .ok (cos.find? (fun c => c.id = id), { db with companies := cos })
  get_competitors_by_ids := fun ids db =>
    if ids = [] then .ok ([], db)
    else .ok (db.companies.filter (fun c => ids.contains c.id), db)

/-- A competitor entry of the `saved_competitors` list: either a saved row
(`{id, name, url, created}`) or an error entry (`{name, url, error}`). -/
inductive SavedCompetitor where
  | ok (id name url : String) (created : Bool)
  | err (name url msg : String)
  deriving DecidableEq

/-- Python `'error' not in c` over a `saved_competitors` entry. -/
def SavedCompetitor.isOk : SavedCompetitor → Bool
  | .ok _ _ _ _ => true
  | .err _ _ _ => false

/-- `len([c for c in saved_competitors if 'error' not in c])`. -/
def okCount (saved : List SavedCompetitor) : Nat :=
  (saved.filter SavedCompetitor.isOk).length

/-- One research outcome (`research_result` dict): `success` carries the
`from_cache` flag and the three data arrays, `failed` is the
unparsable-response outcome, `rerror` is the per-competitor exception
outcome (`status: "error"`). -/
inductive ResearchResult where
  | success (competitor_id name : String) (from_cache : Bool)
      (networth users funding : JsonList)
  | failed (competitor_id name msg : String)
  | rerror (competitor_id name msg : String)
  deriving DecidableEq

/-- The `status` field of a research result. -/
def ResearchResult.statusOf : ResearchResult → String
  | .success _ _ _ _ _ _ => "success"
  | .failed _ _ _ => "failed"
  | .rerror _ _ _ => "error"

/-- The server-sent events yielded by the generators (the `data:` frames
of `views.py`, by their `type` discriminator). -/
inductive Event where
  | status (message : String)
  | statusTotal (message : String) (total_competitors : Nat)
  | competitors_list (total : Nat)
  | competitor (c : SavedCompetitor)
  | research_status (competitor_id name stat : String)
  | competitor_research (r : ResearchResult)
  | complete (company_url : String) (total_found total_saved : Nat)
      (research_results : List ResearchResult)
  | error (msg : String)
  deriving DecidableEq

/-- Is this a `competitor` event? -/
def Event.isCompetitor : Event → Bool
  | .competitor _ => true
  | _ => false

/-- Orchestrator run state: the store, the number of generation-capability
calls, and the recorded `update_company_competitor_ids` invocations. -/
structure RunSt where
  db : DbSt
  llmCalls : Nat
  updateCidCalls : List (String × List String)
  deriving DecidableEq

/-- Python truthiness of `main_company_id` (`None` and `""` are falsy). -/
def pyTruthyOpt : Option String → Bool
  | some s => s ≠ ""
  | none => false

/-- The fixed competitor-discovery prompt of `views.py:84-96`, with the
company URL spliced in the middle. -/
def competitorPrompt (company_url : String) : String :=
  "You are a business analyst with 20 years of experience. You can take any company's website url, and do research about it and figure out who their competitors are.\n\nIMPORTANT: You must respond with ONLY a valid JSON array. Do not include any explanatory text, markdown formatting, or code blocks. Return only the raw JSON array.\n\nThe output must be a JSON array where each object has this exact structure:\n\x7b\n  \"name\": \"<company name>\",\n  \"url\": \"<company website URL>\"\n\x7d\n\nCompany URL: "
  ++ company_url ++ "\n\nRemember: Output ONLY the JSON array, nothing else."

/-- The fixed time-series research prompt of `views.py:346-384`, with the
competitor URL spliced in the middle. -/
def researchPrompt (competitor_url : String) : String :=
  "You are a business analyst with 20 years of experience. You can take any company's website url, and do research about it and figure out how their networth has changed since they have started their company, how their number of users have changed since they started the business and how much funding they have made since the start of their company.\n\nIMPORTANT: You must respond with ONLY valid JSON. Do not include any explanatory text, markdown formatting, or code blocks. Return only the raw JSON object.\n\nThe output must be a JSON object with this exact structure:\n\n\x7b\n  \"networth\": [],\n  \"users\": [],\n  \"funding\": []\n\x7d\n\nThe \"networth\" array contains objects with this structure (each object must have these exact keys):\n\x7b\n  \"value\": 1234567.89,\n  \"year\": 2023,\n  \"source\": \"https://example.com/source\"\n\x7d\nNote: \"value\" must be a number in USD (normalize currency to USD if needed), \"year\" must be a number, \"source\" must be a valid URL string.\n\nThe \"users\" array contains objects with this structure (each object must have these exact keys):\n\x7b\n  \"value\": 1000000,\n  \"year\": 2023,\n  \"source\": \"https://example.com/source\"\n\x7d\nNote: \"value\" must be a number representing total users, \"year\" must be a number, \"source\" must be a valid URL string.\n\nThe \"funding\" array contains objects with this structure (each object must have these exact keys):\n\x7b\n  \"value\": 5000000.00,\n  \"year\": 2023,\n  \"source\": \"https://example.com/source\"\n\x7d\nNote: \"value\" must be a number in USD representing funding amount, \"year\" must be a number, \"source\" must be a valid URL string.\n\nCompany URL: "
  ++ competitor_url ++ "\n\nRemember: Output ONLY the JSON object, nothing else."

/-- `urlparse(company_url).netloc` for the URL shapes that reach this
code: the authority component after `scheme://` (or a leading `//`), up to
the first `/`, `?` or `#`; empty when the URL has no authority marker. -/
def netlocOf (url : String) : String :=
  let cs := url.data
  let after : Option (List Char) :=
    match idxOfL ':' cs with
    | some i =>
      if startsL ['/', '/'] (cs.drop (i + 1)) then some (cs.drop (i + 3)) else none
    | none => if startsL ['/', '/'] cs then some (cs.drop 2) else none
  match after with
  | some rest => ⟨rest.takeWhile (fun c => c ≠ '/' ∧ c ≠ '?' ∧ c ≠ '#')⟩
  | none => ""

/-- Fuel-driven worker for `replaceWww`; each step consumes at least one
character, so `replaceWww` always supplies enough fuel. -/
def replaceWwwF : Nat → List Char → List Char
  | 0, cs => cs
  | _ + 1, [] => []
  | fuel + 1, c :: rest =>
    if startsL "www.".data (c :: rest) then replaceWwwF fuel (rest.drop 3)
    else c :: replaceWwwF fuel rest

/-- Python `domain.replace('www.', '')`: remove every (non-overlapping,
left-to-right) occurrence of `www.`. -/
def replaceWww (cs : List Char) : List Char := replaceWwwF cs.length cs

/-- The URL-derived main-company name of `views.py:119-123`:
`domain.split('.')[0].capitalize()` over the `www.`-stripped netloc, or
the URL itself when the netloc is empty. -/
def urlDerivedName (company_url : String) : String :=
  let domain := replaceWww (netlocOf company_url).data
  if domain = [] then company_url
  else
    let first := domain.takeWhile (fun c => c ≠ '.')
    match first with
    | [] => ""
    | c :: rest => ⟨c.toUpper :: toLowerL rest⟩

/-- The ensure-main-company block of `find_and_save_competitors`
(`views.py:111-134`): with a falsy incoming id, look the company up by
URL, otherwise create it with the URL-derived name; a creation that
returns no data leaves the id `None`.  Errors of these two calls are not
caught there and propagate. -/
def ensureMain (svc : Service) (company_url : String) (mid : Option String)
    (db : DbSt) : Except String (Option String × DbSt) :=
  if pyTruthyOpt mid then .ok (mid, db)
  else
    match svc.get_company_by_url company_url db with
    | .error e => .error e
    | .ok (some row, db') => .ok (some row.id, db')
    | .ok (none, db') =>
      match svc.create_company (urlDerivedName company_url) (some company_url) db' with
      | .error e => .error e
      | .ok (some row, db'') => .ok (some row.id, db'')
      | .ok (none, db'') => .ok (none, db'')

/-- The body of one non-skipped iteration of the competitor save loop
(`views.py:148-227`): look up by URL then by name (each with its own inner
`try`), update-and-reuse or create, and on a per-item fault (a failing or
data-less `create_company`, the only operations whose exceptions reach the
per-item handler) produce the error entry of `views.py:221-225`.  Returns
the `saved_competitors` entry, the collected id (if any) and the store. -/
def saveOneBody (svc : Service) (c : Candidate) (db : DbSt) :
    SavedCompetitor × Option String × DbSt :=
  let name' := pyStrip c.name
  let url' := pyStrip c.url
  let (ex1, db1) : Option CompanyRow × DbSt :=
    if url' ≠ "" then
      match svc.get_company_by_url url' db with
      | .ok (r, db') => (r, db')
      | .error _ => (none, db)
    else (none, db)
  let (existing, db2) : Option CompanyRow × DbSt :=
    match ex1 with
    | some r => (some r, db1)
    | none =>
      match svc.find_company_by_name name' db1 with
      | .ok (r, db') => (r, db')
      | .error _ => (none, db1)
  match existing with
  | some exrow =>
    let company_id := exrow.id
    let upName : Option String := if exrow.name ≠ name' then some name' else none
    let upUrl : Option String :=
      if url' ≠ "" ∧ exrow.website_url ≠ some url' then some url' else none
    let (exrow', db3) : CompanyRow × DbSt :=
      if upName.isSome ∨ upUrl.isSome then
        match svc.update_company company_id upName upUrl db2 with
        | .ok (some u, db') => (u, db')
        | .ok (none, db') => (exrow, db')
        | .error _ => (exrow, db2)
      else (exrow, db2)
    (SavedCompetitor.ok exrow'.id exrow'.name (exrow'.website_url.getD "") false,
     some company_id, db3)
  | none =>
    match svc.create_company name' (if url' ≠ "" then some url' else none) db2 with
    | .ok (some newRow, db3) =>
      (SavedCompetitor.ok newRow.id newRow.name (newRow.website_url.getD "") true,
       some newRow.id, db3)
    | .ok (none, db3) =>
      (SavedCompetitor.err c.name c.url
        "Failed to save: Failed to create company - no data returned", none, db3)
    | .error e =>
      (SavedCompetitor.err c.name c.url ("Failed to save: " ++ e), none, db2)

/-- The competitor save loop of `find_and_save_competitors`
(`views.py:140-227`): candidates with a blank stripped name are skipped
silently (`views.py:145-147`); every other candidate is processed by
`saveOneBody` and yields exactly one `competitor` event and one
`saved_competitors` entry.  Returns the yielded events, the entries, the
collected `competitor_ids` and the final store. -/
def saveLoop (svc : Service) :
    List Candidate → DbSt → List Event × List SavedCompetitor × List String × DbSt
  | [], db => ([], [], [], db)
  | c :: restC, db =>
    if pyStrip c.name = "" then saveLoop svc restC db
    else
      let (entry, id?, db') := saveOneBody svc c db
      let (evs, saved, ids, db4) := saveLoop svc restC db'
      (.competitor entry :: evs, entry :: saved,
       (match id? with | some i => i :: ids | none => ids), db4)

/-- Embedding of `find_and_save_competitors` (`views.py:69-237`): call the
generation capability with the discovery prompt, extract candidates, emit
`competitors_list`, ensure the main company, run the save loop, and — only
when the main id is truthy and the collected id list non-empty — call
`update_company_competitor_ids` (whose own failure is caught and logged).
The generation call and `ensureMain` are outside every `try`, so their
faults propagate to the caller. -/
def find_and_save_competitors (svc : Service) (llm : String → Except String String)
    (company_url : String) (main_company_id : Option String) (st : RunSt) :
    List Event × Except String (List SavedCompetitor) × RunSt :=
  let st := { st with llmCalls := st.llmCalls + 1 }
  match llm (competitorPrompt company_url) with
  | .error e => ([], .error e, st)
  | .ok response_text =>
    let competitors := parse_competitors_response response_text
    let ev1 := Event.competitors_list competitors.length
    match ensureMain svc company_url main_company_id st.db with
    | .error e => ([ev1], .error e, st)
    | .ok (mid, db1) =>
      let (evs, saved, ids, db2) := saveLoop svc competitors db1
      let st2 := { st with db := db2 }
      let st3 :=
        if pyTruthyOpt mid ∧ ids ≠ [] then
          let m := mid.getD ""
          let st' := { st2 with updateCidCalls := st2.updateCidCalls ++ [(m, ids)] }
          match svc.update_company_competitor_ids m ids st'.db with
          | .ok (_, db') => { st' with db := db' }
          | .error _ => st'
        else st2
      (ev1 :: evs, .ok saved, st3)

/-- Python `str(e)` of the `AttributeError` raised at `views.py:315`:
`supabase_service.get_company_analysis(competitor_id)` is called there, but
class `SupabaseService` (`src/competitor_research/supabase_service.py`)
defines no attribute of that name — its methods are `get_client`,
`get_companies`, `get_company`, `get_company_by_url`,
`get_competitors_by_ids`, `create_company`, `update_company`,
`update_company_competitor_ids`, `delete_company`, `get_company_funding`,
`create_company_funding`, `get_company_networth`,
`create_company_networth`, `get_company_users` and
`create_company_users` — so the attribute lookup raises inside the
per-competitor `try`. -/
def attributeErrMsg : String :=
  "'SupabaseService' object has no attribute 'get_company_analysis'"

/-- Python `existing_analysis.get(key, [])` restricted to list values (the
only use the research loop makes of it). -/
def jsonGetList (d : JsonFields) (k : String) : JsonList :=
  match dictGetD d k (.arr .nil) with
  | .arr xs => xs
  | _ => .nil

/-- Integer value of a leading `-?[0-9]+` prefix, if any: the embedding of
Python `float(x)` / `int(x)` truncation on numeric lexemes, used only in
`save_research_data` (code that is unreachable behind the missing
`get_company_analysis` attribute). -/
def intPrefix? (s : String) : Option Int :=
  let (neg, cs) : Bool × List Char :=
    match s.data with
    | '-' :: rest => (true, rest)
    | rest => (false, rest)
  let ds := cs.takeWhile Char.isDigit
  if ds = [] then none
  else
    let v : Int := Int.ofNat (ds.foldl (fun a c => a * 10 + (c.toNat - '0'.toNat)) 0)
    some (if neg then -v else v)

/-- Embedding of Python `float(x)` on a parsed JSON value, at the `Int`
abstraction of numeric payloads (`None`, strings without a numeric prefix,
lists and dicts raise). -/
def pyToFloat? : Json → Option Int
  | .num lex => intPrefix? lex
  | .bool b => some (if b then 1 else 0)
  | .str s => intPrefix? s
  | _ => none

/-- Embedding of Python `int(x)` at the same abstraction. -/
def pyToInt? : Json → Option Int := pyToFloat?

/-- Embedding of `save_research_data` (`views.py:632-683`): for each of the
three arrays, insert every dict item carrying `value`, `year` and `source`
through the corresponding `create_company_*` upsert; each record has its
own `except` (a failing conversion or insert only skips that record), so
the function never raises. -/
def save_research_data (st : DbSt) (company_id : String) (rd : ResearchData) : DbSt :=
  let step (create : DbSt → String → Int → Int → String → Except String (Option TSRow × DbSt))
      (db : DbSt) (item : Json) : DbSt :=
    match item with
    | .obj fs =>
      match dictFind? fs "value", dictFind? fs "year", dictFind? fs "source" with
      | some v, some y, some src =>
        match pyToFloat? v, pyToInt? y with
        | some vv, some yy =>
          match create db company_id vv yy (pyStrip (pyStr src)) with
          | .ok (_, db') => db'
          | .error _ => db
        | _, _ => db
      | _, _, _ => db
    | _ => db
  let db1 := rd.networth.toList.foldl (step create_company_networth) st
  let db2 := rd.users.toList.foldl
    (fun db item => step (fun d c v y s => create_company_users d c v y s) db item) db1
  rd.funding.toList.foldl (step create_company_funding) db2

/-- The per-competitor research loop of `stream_competitors_research`
(`views.py:303-444`): entries carrying an error or a falsy URL are
skipped; for the rest, after the `checking` status event the call to the
missing `get_company_analysis` attribute raises, the per-competitor
`except` converts it into a `status: "error"` result, and the loop
continues.  The cache-hit and OpenAI branches that follow the failing call
are embedded as written even though they are unreachable. -/
def researchLoop (svc : Service) (llm : String → Except String String) :
    List SavedCompetitor → RunSt → List Event × List ResearchResult × RunSt
  | [], st => ([], [], st)
  | comp :: rest, st =>
    match comp with
    | .err _ _ _ => researchLoop svc llm rest st
    | .ok cid name curl _ =>
      if curl = "" then researchLoop svc llm rest st
      else
        let ev0 := Event.research_status cid name "checking"
        let analysisStep : Except String (Option JsonFields) := .error attributeErrMsg
        match analysisStep with
        | .error e =>
          let res := ResearchResult.rerror cid name e
          let (evs, rs, st') := researchLoop svc llm rest st
          (ev0 :: .competitor_research res :: evs, res :: rs, st')
        | .ok (some analysis) =>
          let res := ResearchResult.success cid name true
            (jsonGetList analysis "networth") (jsonGetList analysis "users")
            (jsonGetList analysis "funding")
          let (evs, rs, st') := researchLoop svc llm rest st
          (ev0 :: .research_status cid name "found_in_db" :: .competitor_research res :: evs,
           res :: rs, st')
        | .ok none =>
          let ev1 := Event.research_status cid name "analyzing"
          let st1 := { st with llmCalls := st.llmCalls + 1 }
          match llm (researchPrompt curl) with
          | .error e =>
            let res := ResearchResult.rerror cid name e
            let (evs, rs, st') := researchLoop svc llm rest st1
            (ev0 :: ev1 :: .competitor_research res :: evs, res :: rs, st')
          | .ok response_text =>
            match parse_research_response response_text with
            | some rd =>
              if cid ≠ "" then
                let db' := save_research_data st1.db cid rd
                let res := ResearchResult.success cid name false rd.networth rd.users rd.funding
                let (evs, rs, st') := researchLoop svc llm rest { st1 with db := db' }
                (ev0 :: ev1 :: .competitor_research res :: evs, res :: rs, st')
              else
                let res := ResearchResult.failed cid name "Could not parse research data"
                let (evs, rs, st') := researchLoop svc llm rest st1
                (ev0 :: ev1 :: .competitor_research res :: evs, res :: rs, st')
            | none =>
              let res := ResearchResult.failed cid name "Could not parse research data"
              let (evs, rs, st') := researchLoop svc llm rest st1
              (ev0 :: ev1 :: .competitor_research res :: evs, res :: rs, st')

/-- The tail of `stream_competitors_research` after discovery
(`views.py:296-447`): the `Starting competitor research...` status with
its `total_competitors` field, the research loop, and the final `complete`
event with `total_found` / `total_saved` / `research_results`. -/
def afterDiscovery (svc : Service) (llm : String → Except String String)
    (company_url : String) (saved : List SavedCompetitor) (evs : List Event)
    (st : RunSt) : List Event × RunSt :=
  let evR := Event.statusTotal "Starting competitor research..." saved.length
  let (evs2, results, st') := researchLoop svc llm saved st
  let evC := Event.complete company_url saved.length (okCount saved) results
  (evs ++ evR :: evs2 ++ [evC], st')

/-- Embedding of `stream_competitors_research` (`views.py:240-451`): the
lookup, the cached-competitors branch or `find_and_save_competitors`, the
research loop, and the `complete` event; any fault escaping those steps is
caught by the generator-level `except` and yielded as a single `error`
event after the events already streamed. -/
def stream_competitors_research (svc : Service) (llm : String → Except String String)
    (company_url : String) (st0 : RunSt) : List Event × RunSt :=
  let ev0 := Event.status "Checking database for existing company..."
  match svc.get_company_by_url company_url st0.db with
  | .error e => ([ev0, .error e], st0)
  | .ok (existingOpt, db1) =>
    let st1 := { st0 with db := db1 }
    match existingOpt with
    | some existing =>
      if existing.competitor_ids ≠ [] then
        let ev1 := Event.status ("Found existing company with "
          ++ toString existing.competitor_ids.length ++ " competitors in database...")
        match svc.get_competitors_by_ids existing.competitor_ids st1.db with
        | .error e => ([ev0, ev1, .error e], st1)
        | .ok (rows, db2) =>
          let saved := rows.map (fun comp =>
            SavedCompetitor.ok comp.id comp.name (comp.website_url.getD "") false)
          let evs := ev0 :: ev1 :: Event.competitors_list saved.length
            :: saved.map Event.competitor
          afterDiscovery svc llm company_url saved evs { st1 with db := db2 }
      else
        let ev1 := Event.status "Company found but no competitors. Finding competitors..."
        let (evs, r, st2) := find_and_save_competitors svc llm company_url (some existing.id) st1
        match r with
        | .error e => (ev0 :: ev1 :: evs ++ [.error e], st2)
        | .ok saved => afterDiscovery svc llm company_url saved (ev0 :: ev1 :: evs) st2
    | none =>
      let ev1 := Event.status "Company not found. Finding competitors..."
      let (evs, r, st2) := find_and_save_competitors svc llm company_url none st1
      match r with
      | .error e => (ev0 :: ev1 :: evs ++ [.error e], st2)
      | .ok saved => afterDiscovery svc llm company_url saved (ev0 :: ev1 :: evs) st2

/-! ## Helper lemmas -/

theorem idxOfL_append_not_mem {c : Char} {l1 l2 : List Char} (h : c ∉ l1) :
    idxOfL c (l1 ++ l2) = (idxOfL c l2).map (fun k => l1.length + k) := by
  induction l1 with
  | nil => cases hk : idxOfL c l2 <;> simp [hk]
  | cons d t ih =>
    have hd : d ≠ c := fun e => h (by simp [e])
    rw [List.cons_append]
    simp only [idxOfL, if_neg hd, ih (fun hc => h (List.mem_cons_of_mem _ hc))]
    cases hk : idxOfL c l2 <;> (simp [hk]; try omega)

theorem idxOfL_cons_self {c : Char} {rest : List Char} :
    idxOfL c (c :: rest) = some 0 := by simp [idxOfL]

/-- The per-element cleaning step of `parse_competitors_response`, as the
spec describes it: a dict item carrying both keys becomes a candidate with
stringified, stripped fields; everything else is dropped. -/
def cleanOne : Json → Option Candidate
  | .obj fs =>
    match dictFind? fs "name", dictFind? fs "url" with
    | some n, some u => some ⟨pyStrip (pyStr n), pyStrip (pyStr u)⟩
    | _, _ => none
  | _ => none

theorem cleanLoop_eq_filterMap : (xs : JsonList) →
    cleanLoop xs = xs.toList.filterMap cleanOne
  | .nil => rfl
  | .cons h t => by
    have ih := cleanLoop_eq_filterMap t
    cases h with
    | obj fs =>
      cases hn : dictFind? fs "name" <;> cases hu : dictFind? fs "url" <;>
        simp [cleanLoop, hn, hu, JsonList.toList, cleanOne, ih, List.filterMap_cons]
    | null => simp [cleanLoop, JsonList.toList, cleanOne, ih, List.filterMap_cons]
    | bool b => simp [cleanLoop, JsonList.toList, cleanOne, ih, List.filterMap_cons]
    | num l => simp [cleanLoop, JsonList.toList, cleanOne, ih, List.filterMap_cons]
    | str s => simp [cleanLoop, JsonList.toList, cleanOne, ih, List.filterMap_cons]
    | arr es => simp [cleanLoop, JsonList.toList, cleanOne, ih, List.filterMap_cons]

theorem firstArraySpan_of_shape (pre mid post : List Char)
    (hpre : '[' ∉ pre) (hmid : ']' ∉ mid) :
    firstArraySpan (pre ++ ('[' :: (mid ++ [']'])) ++ post) =
      some ('[' :: (mid ++ [']'])) := by
  have e1 : pre ++ ('[' :: (mid ++ [']'])) ++ post =
      pre ++ ('[' :: (mid ++ (']' :: post))) := by simp
  have h1 : idxOfL '[' (pre ++ ('[' :: (mid ++ (']' :: post)))) = some pre.length := by
    rw [idxOfL_append_not_mem hpre, idxOfL_cons_self]
    simp
  have hdrop : (pre ++ ('[' :: (mid ++ (']' :: post)))).drop (pre.length + 1) =
      mid ++ (']' :: post) := by
    have e2 : pre ++ ('[' :: (mid ++ (']' :: post))) =
        (pre ++ ['[']) ++ (mid ++ (']' :: post)) := by simp
    have hl : pre.length + 1 = (pre ++ ['[']).length := by simp
    rw [e2, hl, List.drop_left]
  have h2 : idxFromL ']' (pre.length + 1) (pre ++ ('[' :: (mid ++ (']' :: post)))) =
      some (pre.length + 1 + mid.length) := by
    rw [idxFromL, hdrop, idxOfL_append_not_mem hmid, idxOfL_cons_self]
    simp
  have h3 : subL (pre ++ ('[' :: (mid ++ (']' :: post)))) pre.length (mid.length + 2) =
      '[' :: (mid ++ [']']) := by
    rw [subL, List.drop_left]
    have e3 : ('[' :: (mid ++ (']' :: post)) : List Char) =
        ('[' :: (mid ++ [']'])) ++ post := by simp
    have hl : mid.length + 2 = ('[' :: (mid ++ [']']) : List Char).length := by simp
    rw [e3, hl, List.take_left]
  have harith : pre.length + 1 + mid.length + 1 - pre.length = mid.length + 2 := by omega
  rw [e1]
  simp only [firstArraySpan, h1, h2, harith, h3]

/-! ## C3 — `parse_competitors_response` on embedded JSON arrays -/

/-- C3 counterexample: on the raw text `[{"name":"","url":""}]` — a
syntactically valid JSON array of `{name, url}` objects — the function
keeps the object whose `name` and `url` are empty strings, returning a
non-empty result where the claim ("keeping only objects whose name and url
are non-empty string fields") demands the empty sequence. -/
theorem c3_empty_fields_kept :
    parse_competitors_response "[\x7b\"name\":\"\",\"url\":\"\"\x7d]" = [⟨"", ""⟩] ∧
    ([⟨"", ""⟩] : List Candidate) ≠ [] := by
  constructor
  · rfl
  · simp

/-- C3 (amended): for every raw text of the form `pre ++ s ++ post` where
`pre` contains no `[`, `s` is a JSON array literal whose only `]` is its
final character, and `json.loads` accepts `s` as an array, the extractor
returns exactly the dict elements of that array that contain both a `name`
and a `url` key — with values stringified and whitespace-trimmed, in
source order — with no requirement that the fields be non-empty or even
strings. -/
theorem c3_extracts_first_array (pre s post : String) (mid : List Char) (xs : JsonList)
    (hpre : '[' ∉ pre.data) (hs : s.data = '[' :: (mid ++ [']'])) (hmid : ']' ∉ mid)
    (hparse : jsonLoadsL s.data = some (.arr xs)) :
    parse_competitors_response (pre ++ s ++ post) = xs.toList.filterMap cleanOne := by
  have hdata : (pre ++ s ++ post).data =
      pre.data ++ ('[' :: (mid ++ [']'])) ++ post.data := by
    rw [String.data_append, String.data_append, hs]
  have hspan : firstArraySpan ((pre ++ s ++ post).data) = some s.data := by
    rw [hdata, firstArraySpan_of_shape pre.data mid post.data hpre hmid, hs]
  rw [parse_competitors_response]
  simp only [hspan, hparse]
  exact cleanLoop_eq_filterMap xs

/-! ## C6 — the `has_arrays` pre-filter of the brace scan -/

/-- C6: the brace-matching strategy accepts the object `{"a": 1}` although
it contains none of the three expected keys: `has_arrays` is satisfied
because `research_data.get(k, [])` returns the list default for every
missing key, so the pre-filter never rejects a dict with a missing key,
and the whole extractor returns the all-empty mapping instead of rejecting
the candidate. -/
theorem c6_brace_scan_accepts_keyless_object :
    hasArrays (.cons "a" (.num "1") .nil) = true ∧
    braceTop tryBraceCand ("\x7b\"a\": 1\x7d".data) 0 = some ⟨.nil, .nil, .nil⟩ ∧
    parse_research_response "\x7b\"a\": 1\x7d" = some ⟨.nil, .nil, .nil⟩ :=
  ⟨rfl, rfl, rfl⟩

/-! ## C1 — the research loop's cache check -/

/-- C1: for every store behavior, generation capability, competitor id and
name, every non-empty URL and every tail, the research loop handles the
competitor by raising `AttributeError` at the `get_company_analysis` call
(the method does not exist on `SupabaseService`) and converting it into a
`status:"error"` result — the `FinancialRecord` cache check, the
`from_cache` tagging and the generation call are never reached. -/
theorem c1_research_loop_never_reaches_cache_check
    (svc : Service) (llm : String → Except String String) (cid name : String)
    (c : Char) (cs : List Char) (b : Bool) (rest : List SavedCompetitor) (st : RunSt) :
    researchLoop svc llm (.ok cid name ⟨c :: cs⟩ b :: rest) st =
      ((Event.research_status cid name "checking" ::
        Event.competitor_research (.rerror cid name attributeErrMsg) ::
        (researchLoop svc llm rest st).1),
       (.rerror cid name attributeErrMsg :: (researchLoop svc llm rest st).2.1),
       (researchLoop svc llm rest st).2.2) := by
  have hne : (⟨c :: cs⟩ : String) ≠ "" := by
    intro h
    have := congrArg String.data h
    simp at this
  rw [researchLoop, if_neg hne]

/-- C1 at a concrete input: one competitor with a usable URL against the
concrete store service is converted straight into the `AttributeError`
result. -/
theorem c1_research_loop_never_reaches_cache_check_witness :
    researchLoop realService (fun _ => .ok "x")
        (.ok "id1" "N" ⟨'h' :: "ttps://n.io".data⟩ false :: []) ⟨⟨[], [], [], [], 0⟩, 0, []⟩ =
      ((Event.research_status "id1" "N" "checking" ::
        Event.competitor_research (.rerror "id1" "N" attributeErrMsg) ::
        (researchLoop realService (fun _ => .ok "x") [] ⟨⟨[], [], [], [], 0⟩, 0, []⟩).1),
       (.rerror "id1" "N" attributeErrMsg ::
        (researchLoop realService (fun _ => .ok "x") [] ⟨⟨[], [], [], [], 0⟩, 0, []⟩).2.1),
       (researchLoop realService (fun _ => .ok "x") [] ⟨⟨[], [], [], [], 0⟩, 0, []⟩).2.2) :=
  c1_research_loop_never_reaches_cache_check realService (fun _ => .ok "x") "id1" "N"
    'h' "ttps://n.io".data false [] ⟨⟨[], [], [], [], 0⟩, 0, []⟩

/-! ## C2 — duplicate-key tolerant upserts -/

/-- C2 counterexample: with a `(c, 2020)` funding row already stored,
`create_company_funding` for the same pair with a different value and
source re-raises the duplicate-key error instead of updating the existing
row, so the funding variant has no upsert fallback.  (`isDuplicateErr`
confirms the raised error is precisely the one the claim's update path is
required to absorb.) -/
theorem c2_funding_raises_on_duplicate :
    create_company_funding ⟨[], [], [], [⟨"c", 1, 2020, "s1"⟩], 0⟩ "c" 2 2020 "s2" =
      .error "duplicate key value violates unique constraint" ∧
    isDuplicateErr duplicateKeyError = true :=
  ⟨rfl, rfl⟩

/-- The time-series table produced by the insert-then-update-on-conflict
shape shared by `create_company_networth` and `create_company_users`. -/
def upsertTbl (tbl : List TSRow) (cid : String) (v y : Int) (s : String) : List TSRow :=
  match clientInsertTS tbl ⟨cid, v, y, s⟩ with
  | .ok t => t
  | .error _ => (clientUpdateTS tbl cid y v s).1

theorem create_company_networth_eq (st : DbSt) (cid : String) (v y : Int) (s : String) :
    ∃ r, create_company_networth st cid v y s =
      .ok (r, { st with networth := upsertTbl st.networth cid v y s }) := by
  rw [create_company_networth, upsertTbl]
  cases h : clientInsertTS st.networth ⟨cid, v, y, s⟩ with
  | ok t => exact ⟨_, rfl⟩
  | error e =>
    have he : e = duplicateKeyError := by
      rw [clientInsertTS] at h
      split at h
      · injection h with h'
        exact h'.symm
      · exact Except.noConfusion h
    subst he
    exact ⟨_, rfl⟩

theorem create_company_users_eq (st : DbSt) (cid : String) (v y : Int) (s : String) :
    ∃ r, create_company_users st cid v y s =
      .ok (r, { st with users := upsertTbl st.users cid v y s }) := by
  rw [create_company_users, upsertTbl]
  cases h : clientInsertTS st.users ⟨cid, v, y, s⟩ with
  | ok t => exact ⟨_, rfl⟩
  | error e =>
    have he : e = duplicateKeyError := by
      rw [clientInsertTS] at h
      split at h
      · injection h with h'
        exact h'.symm
      · exact Except.noConfusion h
    subst he
    exact ⟨_, rfl⟩

theorem rowsFor_map_upd (tbl : List TSRow) (cid : String) (y v : Int) (s : String) :
    rowsFor (tbl.map (fun r =>
        if r.company_id = cid ∧ r.year = y
        then { r with value := v, source_url := s } else r)) cid y =
      (rowsFor tbl cid y).map (fun r => { r with value := v, source_url := s }) := by
  rw [rowsFor, rowsFor, List.filter_map]
  have hp : ((fun r : TSRow => decide (r.company_id = cid ∧ r.year = y)) ∘
      (fun r : TSRow => if r.company_id = cid ∧ r.year = y
        then { r with value := v, source_url := s } else r)) =
      fun r : TSRow => decide (r.company_id = cid ∧ r.year = y) := by
    funext r
    by_cases h : r.company_id = cid ∧ r.year = y
    · simp only [Function.comp_apply, if_pos h]
    · simp only [Function.comp_apply, if_neg h]
  rw [hp]
  apply List.map_congr_left
  intro r hr
  have := (List.mem_filter.mp hr).2
  simp at this
  simp [this]

theorem oneUpsert (tbl : List TSRow) (cid : String) (v y : Int) (s : String)
    (h : (rowsFor tbl cid y).length ≤ 1) :
    rowsFor (upsertTbl tbl cid v y s) cid y = [⟨cid, v, y, s⟩] := by
  rw [upsertTbl]
  cases hins : clientInsertTS tbl ⟨cid, v, y, s⟩ with
  | ok t =>
    rw [clientInsertTS] at hins
    dsimp only at hins
    have hparts : (tbl.any (fun r => decide (r.company_id = cid ∧ r.year = y)) = false)
        ∧ t = tbl ++ [⟨cid, v, y, s⟩] := by
      split at hins
      · exact Except.noConfusion hins
      · next hcond =>
        refine ⟨Bool.eq_false_iff.mpr hcond, ?_⟩
        injection hins with h'
        exact h'.symm
    obtain ⟨hany, ht⟩ := hparts
    subst ht
    have hempty : rowsFor tbl cid y = [] := by
      rw [rowsFor, List.filter_eq_nil_iff]
      intro r hr
      simpa using List.any_eq_false.mp hany r hr
    rw [rowsFor, List.filter_append, ← rowsFor, hempty]
    simp [rowsFor, List.filter]
  | error e =>
    rw [clientInsertTS] at hins
    dsimp only at hins
    have hany : tbl.any (fun r => decide (r.company_id = cid ∧ r.year = y)) = true := by
      split at hins
      · next hcond => simpa using hcond
      · exact Except.noConfusion hins
    rw [clientUpdateTS]
    dsimp only
    rw [rowsFor_map_upd]
    obtain ⟨r0, hmem, hpred⟩ := List.any_eq_true.mp hany
    have hr0 : r0 ∈ rowsFor tbl cid y := List.mem_filter.mpr ⟨hmem, hpred⟩
    have hone : ∃ a, rowsFor tbl cid y = [a] := by
      cases hrows : rowsFor tbl cid y with
      | nil => rw [hrows] at hr0; cases hr0
      | cons a t =>
        cases t with
        | nil => exact ⟨a, rfl⟩
        | cons b u => rw [hrows] at h; simp at h
    obtain ⟨a, ha⟩ := hone
    have hamem : a ∈ rowsFor tbl cid y := ha ▸ List.mem_singleton.mpr rfl
    have hapred := (List.mem_filter.mp hamem).2
    simp only [decide_eq_true_eq] at hapred
    rw [ha]
    cases a
    simp_all

/-- C2 (amended): for the networth and users variants the insert-or-update
shape is a true upsert — calling it twice with the same `(company, year)`
and different value/source always succeeds and leaves exactly one stored
row for the pair, carrying the second call's value and source.  (The
funding variant, per the counterexample, re-raises instead.) -/
theorem c2_networth_users_upsert_idempotent (st : DbSt) (cid s1 s2 : String)
    (v1 v2 y : Int) (hn : uniqTS st.networth) (hu : uniqTS st.users) :
    (∃ r1 st1 r2 st2,
      create_company_networth st cid v1 y s1 = .ok (r1, st1) ∧
      create_company_networth st1 cid v2 y s2 = .ok (r2, st2) ∧
      rowsFor st2.networth cid y = [⟨cid, v2, y, s2⟩]) ∧
    (∃ r1 st1 r2 st2,
      create_company_users st cid v1 y s1 = .ok (r1, st1) ∧
      create_company_users st1 cid v2 y s2 = .ok (r2, st2) ∧
      rowsFor st2.users cid y = [⟨cid, v2, y, s2⟩]) := by
  constructor
  · obtain ⟨r1, h1⟩ := create_company_networth_eq st cid v1 y s1
    obtain ⟨r2, h2⟩ := create_company_networth_eq
      { st with networth := upsertTbl st.networth cid v1 y s1 } cid v2 y s2
    refine ⟨r1, _, r2, _, h1, h2, ?_⟩
    have hfirst : rowsFor (upsertTbl st.networth cid v1 y s1) cid y = [⟨cid, v1, y, s1⟩] :=
      oneUpsert st.networth cid v1 y s1 (hn cid y)
    exact oneUpsert _ cid v2 y s2 (by rw [hfirst]; simp)
  · obtain ⟨r1, h1⟩ := create_company_users_eq st cid v1 y s1
    obtain ⟨r2, h2⟩ := create_company_users_eq
      { st with users := upsertTbl st.users cid v1 y s1 } cid v2 y s2
    refine ⟨r1, _, r2, _, h1, h2, ?_⟩
    have hfirst : rowsFor (upsertTbl st.users cid v1 y s1) cid y = [⟨cid, v1, y, s1⟩] :=
      oneUpsert st.users cid v1 y s1 (hu cid y)
    exact oneUpsert _ cid v2 y s2 (by rw [hfirst]; simp)

/-- C2 witness: the amended statement instantiated on an empty store. -/
theorem c2_networth_users_upsert_idempotent_witness :
    (∃ r1 st1 r2 st2,
      create_company_networth ⟨[], [], [], [], 0⟩ "c" 7 2020 "a" = .ok (r1, st1) ∧
      create_company_networth st1 "c" 9 2020 "b" = .ok (r2, st2) ∧
      rowsFor st2.networth "c" 2020 = [⟨"c", 9, 2020, "b"⟩]) ∧
    (∃ r1 st1 r2 st2,
      create_company_users ⟨[], [], [], [], 0⟩ "c" 7 2020 "a" = .ok (r1, st1) ∧
      create_company_users st1 "c" 9 2020 "b" = .ok (r2, st2) ∧
      rowsFor st2.users "c" 2020 = [⟨"c", 9, 2020, "b"⟩]) :=
  c2_networth_users_upsert_idempotent ⟨[], [], [], [], 0⟩ "c" "a" "b" 7 9 2020
    (by intro cid y; simp [rowsFor]) (by intro cid y; simp [rowsFor])

/-! ## C7 — acceptance condition of `parse_research_response` -/

/-- Lists containing neither `{` nor `}`. -/
def braceFreeL (cs : List Char) : Prop := ∀ c ∈ cs, c ≠ '{' ∧ c ≠ '}'

instance (cs : List Char) : Decidable (braceFreeL cs) := by
  unfold braceFreeL
  infer_instance

theorem startsL_mem {pat cs : List Char} {c : Char} (h : startsL pat cs = true)
    (hc : c ∈ pat) : c ∈ cs := by
  rw [startsL, decide_eq_true_eq] at h
  exact List.take_subset _ _ (h ▸ hc)

theorem fencedAt_none_of_no_tick (opn cls : Char) (allowTag : Bool) (cs : List Char)
    (p : Nat) (h : '`' ∉ cs) : fencedAt opn cls allowTag cs p = none := by
  rw [fencedAt, if_neg]
  intro hs
  exact h (List.drop_subset _ _ (startsL_mem hs (by simp)))

theorem fencedSearch_none_of_no_tick (opn cls : Char) (allowTag : Bool) (cs : List Char)
    (h : '`' ∉ cs) : fencedSearch opn cls allowTag cs = none := by
  rw [fencedSearch, List.findSome?_eq_none_iff]
  intro p _
  exact fencedAt_none_of_no_tick opn cls allowTag cs p h

theorem braceTop_append_free {α : Type} (tc : List Char → Option α)
    (l : List Char) (rest : List Char) (cnt : Int) (h : braceFreeL l) :
    braceTop tc (l ++ rest) cnt = braceTop tc rest cnt := by
  induction l generalizing cnt with
  | nil => rfl
  | cons c t ih =>
    have hc := h c (by simp)
    rw [List.cons_append]
    simp only [braceTop]
    rw [if_neg hc.1, if_neg hc.2]
    exact ih cnt (fun a ha => h a (List.mem_cons_of_mem _ ha))

theorem braceIn_append_free {α : Type} (tc : List Char → Option α)
    (m : List Char) (rest acc : List Char) (d : Nat) (h : braceFreeL m) :
    braceIn tc (m ++ rest) acc d = braceIn tc rest (acc ++ m) d := by
  induction m generalizing acc with
  | nil => simp
  | cons c t ih =>
    have hc := h c (by simp)
    rw [List.cons_append]
    simp only [braceIn]
    rw [if_neg hc.1, if_neg hc.2, ih (acc ++ [c]) (fun a ha => h a (List.mem_cons_of_mem _ ha))]
    have e : (acc ++ [c]) ++ t = acc ++ (c :: t) := by simp
    rw [e]

theorem charAt_unique_at (l r : List Char) (a : Char) (k : Nat)
    (hl : a ∉ l) (hr : a ∉ r) (ha : a ≠ '\x00')
    (h : charAt (l ++ a :: r) k = a) : k = l.length := by
  rw [charAt, List.getD_eq_getElem?_getD, List.getElem?_append] at h
  by_cases hk : k < l.length
  · exfalso
    rw [if_pos hk] at h
    cases hlk : l[k]? with
    | none => rw [hlk] at h; exact ha h.symm
    | some b =>
      rw [hlk] at h
      simp only [Option.getD_some] at h
      exact hl (h ▸ List.getElem?_mem hlk)
  · by_cases hk2 : k = l.length
    · exact hk2
    · exfalso
      rw [if_neg hk] at h
      have hn : k - l.length = (k - l.length - 1) + 1 := by omega
      rw [hn, List.getElem?_cons_succ] at h
      cases hlk : r[k - l.length - 1]? with
      | none => rw [hlk] at h; exact ha h.symm
      | some b =>
        rw [hlk] at h
        simp only [Option.getD_some] at h
        exact hr (h ▸ List.getElem?_mem hlk)

theorem idxOfL_charAt {c : Char} : ∀ {cs : List Char} {k : Nat},
    idxOfL c cs = some k → charAt cs k = c := by
  intro cs
  induction cs with
  | nil => intro k h; cases h
  | cons d t ih =>
    intro k h
    rw [idxOfL] at h
    by_cases hd : d = c
    · rw [if_pos hd] at h
      injection h with h'
      subst h'
      simpa [charAt] using hd
    · rw [if_neg hd] at h
      cases hk : idxOfL c t with
      | none => rw [hk] at h; cases h
      | some k' =>
        rw [hk] at h
        simp only [Option.map_some'] at h
        injection h with h'
        subst h'
        simpa [charAt, List.getD_cons_succ] using ih hk

theorem charAt_drop (cs : List Char) (q k : Nat) :
    charAt (cs.drop q) k = charAt cs (q + k) := by
  rw [charAt, charAt, List.getD_eq_getElem?_getD, List.getD_eq_getElem?_getD,
    List.getElem?_drop]

theorem braceTop_shape {α : Type} (tc : List Char → Option α) (pre mid post : List Char)
    (hpre : braceFreeL pre) (hmid : braceFreeL mid) (hpost : braceFreeL post) :
    braceTop tc (pre ++ ('{' :: (mid ++ ('}' :: post)))) 0 =
      tc ('{' :: (mid ++ ['}'])) := by
  rw [braceTop_append_free tc pre _ 0 hpre]
  have e1 : braceTop tc ('{' :: (mid ++ ('}' :: post))) 0 =
      braceIn tc (mid ++ ('}' :: post)) ['{'] 1 := rfl
  rw [e1, braceIn_append_free tc mid _ ['{'] 1 hmid]
  have e2 : braceIn tc ('}' :: post) (['{'] ++ mid) 1 =
      (match tc ((['{'] ++ mid) ++ ['}']) with
        | some r => some r
        | none => braceTop tc post 0) := rfl
  rw [e2]
  have hcand : (['{'] ++ mid) ++ ['}'] = '{' :: (mid ++ ['}']) := by simp
  have hpost0 : braceTop tc post 0 = none := by
    have h := braceTop_append_free tc post [] 0 hpost
    rw [List.append_nil] at h
    rw [h]
    rfl
  rw [hcand, hpost0]
  cases htc : tc ('{' :: (mid ++ ['}'])) <;> simp [htc]

theorem hasArrays_of_buildSome {d : JsonFields} {r : ResearchData}
    (h : buildFromDict d = some r) : hasArrays d = true := by
  rw [buildFromDict] at h
  split at h
  · next hc =>
    have h1 : (dictGetD d "networth" (.arr .nil)).isArr = true := by
      rw [dictGetD]
      cases hfind : dictFind? d "networth" with
      | none => rfl
      | some v =>
        have hrv : resolveKey d "networth" = v := by rw [resolveKey, hfind]
        simpa [hrv] using hc.1
    simp [hasArrays, List.any, h1]
  · cases h

theorem lazyChainFind_cand (cs cand : List Char) (needles : List (List Char))
    (pre mid post : List Char)
    (h : lazyChainFind cs needles = some cand)
    (hcs : cs = pre ++ ('{' :: (mid ++ ('}' :: post))))
    (hpre : braceFreeL pre) (hmid : braceFreeL mid) (hpost : braceFreeL post) :
    cand = '{' :: (mid ++ ['}']) := by
  obtain ⟨i, _, hsome⟩ := List.exists_of_findSome?_eq_some h
  by_cases hci : charAt cs i = '{'
  swap
  · rw [if_neg hci] at hsome; exact Option.noConfusion hsome
  rw [if_pos hci] at hsome
  have hnotin1 : '{' ∉ pre := fun hm => (hpre _ hm).1 rfl
  have hnotin2 : '{' ∉ mid ++ ('}' :: post) := by
    intro hm
    rcases List.mem_append.mp hm with hm | hm
    · exact (hmid _ hm).1 rfl
    · rcases List.mem_cons.mp hm with hm | hm
      · cases hm
      · exact (hpost _ hm).1 rfl
  have hieq : i = pre.length :=
    charAt_unique_at pre _ '{' i hnotin1 hnotin2 (by decide) (by rw [← hcs]; exact hci)
  cases hq : chainAfter cs (i + 1) needles with
  | none => rw [hq] at hsome; simp at hsome
  | some q =>
    rw [hq] at hsome
    dsimp only at hsome
    cases hj : idxFromL '}' q cs with
    | none => rw [hj] at hsome; simp at hsome
    | some j =>
      rw [hj] at hsome
      dsimp only at hsome
      injection hsome with hcand
      have hcj : charAt cs j = '}' := by
        rw [idxFromL] at hj
        cases hk : idxOfL '}' (cs.drop q) with
        | none => rw [hk] at hj; cases hj
        | some k =>
          rw [hk] at hj
          simp only [Option.map_some'] at hj
          injection hj with hj'
          subst hj'
          rw [← charAt_drop]
          exact idxOfL_charAt hk
      have hshape2 : cs = (pre ++ '{' :: mid) ++ ('}' :: post) := by
        rw [hcs]; simp
      have hnotin3 : '}' ∉ pre ++ '{' :: mid := by
        intro hm
        rcases List.mem_append.mp hm with hm | hm
        · exact (hpre _ hm).2 rfl
        · rcases List.mem_cons.mp hm with hm | hm
          · cases hm
          · exact (hmid _ hm).2 rfl
      have hnotin4 : '}' ∉ post := fun hm => (hpost _ hm).2 rfl
      have hjeq : j = (pre ++ '{' :: mid).length :=
        charAt_unique_at _ post '}' j hnotin3 hnotin4 (by decide)
          (by rw [← hshape2]; exact hcj)
      have hjval : j = pre.length + mid.length + 1 := by
        rw [hjeq]; simp; omega
      subst hieq
      rw [← hcand, hjval]
      have hlen : pre.length + mid.length + 1 + 1 - pre.length = mid.length + 2 := by omega
      rw [hlen, hcs, subL, List.drop_left]
      have e3 : ('{' :: (mid ++ ('}' :: post)) : List Char) =
          ('{' :: (mid ++ ['}'])) ++ post := by simp
      have hl : mid.length + 2 = ('{' :: (mid ++ ['}']) : List Char).length := by simp
      rw [e3, hl, List.take_left]

/-- C7 counterexample: the original claim promises the populated mapping
for every object carrying the three keys as sequences under any
surrounding prose, but prose may itself hold a complete brace-balanced
object — and the brace scan tries earlier candidates first under the
vacuous `has_arrays` guard (`views.py:570-573`).  With the keyless object
`\x7b"a": 1\x7d` preceding the fully populated one, the extractor returns the
all-empty mapping instead of the populated mapping it returns for the
populated object alone. -/
theorem c7_earlier_keyless_candidate_preempts :
    parse_research_response
        "\x7b\"a\": 1\x7d \x7b\"networth\": [1], \"users\": [], \"funding\": []\x7d" =
      some ⟨.nil, .nil, .nil⟩ ∧
    parse_research_response "\x7b\"networth\": [1], \"users\": [], \"funding\": []\x7d" =
      some ⟨.cons (.num "1") .nil, .nil, .nil⟩ ∧
    (⟨.nil, .nil, .nil⟩ : ResearchData) ≠ ⟨.cons (.num "1") .nil, .nil, .nil⟩ :=
  ⟨rfl, rfl, by decide⟩

/-- C7 (amended): restricted to texts `pre ++ s ++ post` with no backtick
anywhere (the fenced strategy does not fire), where `pre`, `post` and the
object interior are brace-free — so `s` is the only complete top-level
object — and `json.loads` accepts `s` as an object: a candidate object is
accepted exactly when all three of `networth`, `users`, `funding` (exact
key first, else the first case-insensitive match, else an empty-list
default) resolve to sequences, and the whole extractor returns precisely
that candidate-level verdict — the populated mapping on acceptance,
`None` on rejection. -/
theorem c7_research_acceptance (pre s post : String) (mid : List Char) (d : JsonFields)
    (hpre : braceFreeL pre.data) (hpost : braceFreeL post.data) (hmid : braceFreeL mid)
    (htpre : '`' ∉ pre.data) (hts : '`' ∉ s.data) (htpost : '`' ∉ post.data)
    (hs : s.data = '{' :: (mid ++ ['}']))
    (hparse : jsonLoadsL s.data = some (.obj d)) :
    parse_research_response (pre ++ s ++ post) = buildFromDict d ∧
    buildFromDict d =
      (if (resolveKey d "networth").isArr ∧ (resolveKey d "users").isArr ∧
          (resolveKey d "funding").isArr
       then some ⟨(resolveKey d "networth").asArr, (resolveKey d "users").asArr,
                  (resolveKey d "funding").asArr⟩
       else none) := by
  refine ⟨?_, rfl⟩
  have hdata : (pre ++ s ++ post).data =
      pre.data ++ ('{' :: (mid ++ ('}' :: post.data))) := by
    rw [String.data_append, String.data_append, hs]
    simp
  have htick : '`' ∉ (pre ++ s ++ post).data := by
    rw [String.data_append, String.data_append]
    intro hm
    rcases List.mem_append.mp hm with hm | hm
    · rcases List.mem_append.mp hm with hm | hm
      · exact htpre hm
      · exact hts hm
    · exact htpost hm
  have hf1 : fencedSearch '\x7b' '\x7d' true ((pre ++ s ++ post).data) = none :=
    fencedSearch_none_of_no_tick _ _ _ _ htick
  have hf2 : fencedSearch '\x7b' '\x7d' false ((pre ++ s ++ post).data) = none :=
    fencedSearch_none_of_no_tick _ _ _ _ htick
  have hbrace : braceTop tryBraceCand ((pre ++ s ++ post).data) 0 = tryBraceCand s.data := by
    rw [hdata, braceTop_shape tryBraceCand pre.data mid post.data hpre hmid hpost, hs]
  have htry : tryBraceCand s.data = if hasArrays d then buildFromDict d else none := by
    rw [tryBraceCand, hparse]
  cases hbuild : buildFromDict d with
  | some r =>
    have hha : hasArrays d = true := hasArrays_of_buildSome hbuild
    rw [parse_research_response]
    simp only [hf1, hf2, hbrace, htry, hha, if_true, hbuild]
  | none =>
    have htrynone : tryBraceCand s.data = none := by
      rw [htry]
      cases hasArrays d <;> simp [hbuild]
    have hpat : ∀ needles ∈ patternNeedles,
        (match lazyChainFind ((pre ++ s ++ post).data) needles with
          | some cand => tryResearchCand cand
          | none => none) = none := by
      intro needles _
      cases hlc : lazyChainFind ((pre ++ s ++ post).data) needles with
      | none => rfl
      | some cand =>
        have hcand : cand = '{' :: (mid ++ ['}']) :=
          lazyChainFind_cand _ cand needles pre.data mid post.data hlc hdata hpre hmid hpost
        rw [hcand, ← hs]
        simp only
        rw [tryResearchCand, hparse]
        exact hbuild
    rw [parse_research_response]
    simp only [hf1, hf2, hbrace, htrynone]
    exact List.findSome?_eq_none_iff.mpr hpat

/-- C7 witness: the amended acceptance statement instantiated on a fully
concrete prose-wrapped candidate with mixed-case keys. -/
theorem c7_research_acceptance_witness :
    parse_research_response ("Result: " ++ "\x7b\"NetWorth\": [1], \"users\": [], \"funding\": []\x7d" ++ " end") =
      buildFromDict (.cons "NetWorth" (.arr (.cons (.num "1") .nil))
        (.cons "users" (.arr .nil) (.cons "funding" (.arr .nil) .nil))) ∧
    buildFromDict (.cons "NetWorth" (.arr (.cons (.num "1") .nil))
        (.cons "users" (.arr .nil) (.cons "funding" (.arr .nil) .nil))) =
      (if (resolveKey (.cons "NetWorth" (.arr (.cons (.num "1") .nil))
            (.cons "users" (.arr .nil) (.cons "funding" (.arr .nil) .nil))) "networth").isArr ∧
          (resolveKey (.cons "NetWorth" (.arr (.cons (.num "1") .nil))
            (.cons "users" (.arr .nil) (.cons "funding" (.arr .nil) .nil))) "users").isArr ∧
          (resolveKey (.cons "NetWorth" (.arr (.cons (.num "1") .nil))
            (.cons "users" (.arr .nil) (.cons "funding" (.arr .nil) .nil))) "funding").isArr
       then some ⟨(resolveKey (.cons "NetWorth" (.arr (.cons (.num "1") .nil))
            (.cons "users" (.arr .nil) (.cons "funding" (.arr .nil) .nil))) "networth").asArr,
          (resolveKey (.cons "NetWorth" (.arr (.cons (.num "1") .nil))
            (.cons "users" (.arr .nil) (.cons "funding" (.arr .nil) .nil))) "users").asArr,
          (resolveKey (.cons "NetWorth" (.arr (.cons (.num "1") .nil))
            (.cons "users" (.arr .nil) (.cons "funding" (.arr .nil) .nil))) "funding").asArr⟩
       else none) :=
  c7_research_acceptance "Result: " "\x7b\"NetWorth\": [1], \"users\": [], \"funding\": []\x7d" " end"
    ("\"NetWorth\": [1], \"users\": [], \"funding\": []".data)
    (.cons "NetWorth" (.arr (.cons (.num "1") .nil))
      (.cons "users" (.arr .nil) (.cons "funding" (.arr .nil) .nil)))
    (by decide) (by decide) (by decide) (by decide) (by decide) (by decide)
    (by decide) (by rfl)

/-! ## C8 — totality and degradation of the two extractors -/

/-- Does `json.loads` accept this text as a JSON array? -/
def isArrLoads (cs : List Char) : Bool :=
  match jsonLoadsL cs with
  | some (.arr _) => true
  | _ => false

/-- Does `json.loads` accept this text as a JSON object? -/
def isObjLoads (cs : List Char) : Bool :=
  match jsonLoadsL cs with
  | some (.obj _) => true
  | _ => false

theorem idxOfL_lt {c : Char} : ∀ {cs : List Char} {k : Nat},
    idxOfL c cs = some k → k < cs.length := by
  intro cs
  induction cs with
  | nil => intro k h; cases h
  | cons d t ih =>
    intro k h
    rw [idxOfL] at h
    by_cases hd : d = c
    · rw [if_pos hd] at h
      injection h with h'
      subst h'
      simp
    · rw [if_neg hd] at h
      cases hk : idxOfL c t with
      | none => rw [hk] at h; cases h
      | some k' =>
        rw [hk] at h
        simp only [Option.map_some'] at h
        injection h with h'
        subst h'
        have := ih hk
        simp
        omega

theorem charAt_oob {cs : List Char} {i : Nat} (h : cs.length ≤ i) : charAt cs i = '\x00' := by
  rw [charAt, List.getD_eq_getElem?_getD, List.getElem?_eq_none h]
  rfl

theorem firstArraySpan_shape {cs cand : List Char} (h : firstArraySpan cs = some cand) :
    ∃ i len, i < cs.length + 1 ∧ len < cs.length + 1 ∧ cand = subL cs i len := by
  rw [firstArraySpan] at h
  cases hi : idxOfL '[' cs with
  | none => rw [hi] at h; exact Option.noConfusion h
  | some i =>
    rw [hi] at h
    dsimp only at h
    cases hj : idxFromL ']' (i + 1) cs with
    | none => rw [hj] at h; exact Option.noConfusion h
    | some j =>
      rw [hj] at h
      dsimp only at h
      injection h with h'
      have hil : i < cs.length := idxOfL_lt hi
      have hjl : j < cs.length := by
        rw [idxFromL] at hj
        cases hk : idxOfL ']' (cs.drop (i + 1)) with
        | none => rw [hk] at hj; cases hj
        | some k =>
          rw [hk] at hj
          simp only [Option.map_some'] at hj
          injection hj with hj'
          have := idxOfL_lt hk
          rw [List.length_drop] at this
          omega
      exact ⟨i, j + 1 - i, by omega, by omega, h'.symm⟩

theorem fencedAt_shape {opn cls : Char} {allowTag : Bool} {cs cand : List Char} {p : Nat}
    (hcls : cls ≠ '\x00') (h : fencedAt opn cls allowTag cs p = some cand) :
    ∃ q len, q < cs.length + 1 ∧ len < cs.length + 1 ∧ cand = subL cs q len := by
  rw [fencedAt] at h
  split at h
  · split at h
    · next hq =>
      obtain ⟨hq1, hq2⟩ := hq
      cases hf : (List.range' (fencedStart allowTag cs p + 1)
          (cs.length - fencedStart allowTag cs p)).find?
          (fun j => charAt cs j = cls ∧
            startsL ['`', '`', '`'] ((cs.drop (j + 1)).dropWhile isPyWs)) with
      | none => rw [hf] at h; exact Option.noConfusion h
      | some j =>
        rw [hf] at h
        injection h with h'
        have hpred := List.find?_some hf
        have hmem := List.mem_of_find?_eq_some hf
        rw [List.mem_range'_1] at hmem
        have hj1 : charAt cs j = cls := (of_decide_eq_true hpred).1
        have hjlt : j < cs.length := by
          by_contra hge
          push_neg at hge
          have hz := charAt_oob hge
          rw [hz] at hj1
          exact hcls hj1.symm
        exact ⟨fencedStart allowTag cs p, j + 1 - fencedStart allowTag cs p,
          by omega, by omega, h'.symm⟩
    · exact Option.noConfusion h
  · exact Option.noConfusion h

theorem fencedSearch_shape {opn cls : Char} {allowTag : Bool} {cs cand : List Char}
    (hcls : cls ≠ '\x00') (h : fencedSearch opn cls allowTag cs = some cand) :
    ∃ q len, q < cs.length + 1 ∧ len < cs.length + 1 ∧ cand = subL cs q len := by
  rw [fencedSearch] at h
  obtain ⟨p, _, hp⟩ := List.exists_of_findSome?_eq_some h
  exact fencedAt_shape hcls hp

theorem subL_of_split {cs l cand rr : List Char} (h : cs = l ++ cand ++ rr) :
    cand = subL cs l.length cand.length := by
  rw [h, subL, List.append_assoc, List.drop_left, List.take_left]

mutual
theorem braceTop_subcand {α : Type} (tc : List Char → Option α) :
    (cs : List Char) → (cnt : Int) → (r : α) → braceTop tc cs cnt = some r →
    ∃ l cand rr, cs = l ++ cand ++ rr ∧ tc cand = some r
  | [], _, r, h => by cases h
  | c :: rest, cnt, r, h => by
    rw [braceTop] at h
    by_cases hc1 : c = '{'
    · rw [if_pos hc1] at h
      by_cases hc0 : cnt = 0
      · rw [if_pos hc0] at h
        obtain ⟨l, cand, rr, heq, htc⟩ := braceIn_subcand tc rest ['{'] 1 r h
        refine ⟨l, cand, rr, ?_, htc⟩
        rw [hc1]
        rw [show ('{' :: rest : List Char) = ['{'] ++ rest from rfl, heq]
      · rw [if_neg hc0] at h
        obtain ⟨l, cand, rr, heq, htc⟩ := braceTop_subcand tc rest (cnt + 1) r h
        exact ⟨c :: l, cand, rr, by rw [heq]; simp, htc⟩
    · rw [if_neg hc1] at h
      by_cases hc2 : c = '}'
      · rw [if_pos hc2] at h
        obtain ⟨l, cand, rr, heq, htc⟩ := braceTop_subcand tc rest (cnt - 1) r h
        exact ⟨c :: l, cand, rr, by rw [heq]; simp, htc⟩
      · rw [if_neg hc2] at h
        obtain ⟨l, cand, rr, heq, htc⟩ := braceTop_subcand tc rest cnt r h
        exact ⟨c :: l, cand, rr, by rw [heq]; simp, htc⟩
theorem braceIn_subcand {α : Type} (tc : List Char → Option α) :
    (cs : List Char) → (acc : List Char) → (d : Nat) → (r : α) →
    braceIn tc cs acc d = some r →
    ∃ l cand rr, acc ++ cs = l ++ cand ++ rr ∧ tc cand = some r
  | [], _, _, r, h => by cases h
  | c :: rest, acc, d, r, h => by
    rw [braceIn] at h
    by_cases hc1 : c = '{'
    · rw [if_pos hc1] at h
      obtain ⟨l, cand, rr, heq, htc⟩ := braceIn_subcand tc rest (acc ++ ['{']) (d + 1) r h
      refine ⟨l, cand, rr, ?_, htc⟩
      rw [← heq, hc1]
      simp
    · rw [if_neg hc1] at h
      by_cases hc2 : c = '}'
      · rw [if_pos hc2] at h
        by_cases hd : d = 1
        · rw [if_pos hd] at h
          cases htc : tc (acc ++ ['}']) with
          | some r' =>
            rw [htc] at h
            injection h with h'
            subst h'
            refine ⟨[], acc ++ ['}'], rest, ?_, htc⟩
            rw [hc2]
            simp
          | none =>
            rw [htc] at h
            obtain ⟨l, cand, rr, heq, htc'⟩ := braceTop_subcand tc rest 0 r h
            exact ⟨acc ++ [c] ++ l, cand, rr, by rw [heq]; simp, htc'⟩
        · rw [if_neg hd] at h
          obtain ⟨l, cand, rr, heq, htc⟩ := braceIn_subcand tc rest (acc ++ ['}']) (d - 1) r h
          refine ⟨l, cand, rr, ?_, htc⟩
          rw [← heq, hc2]
          simp
      · rw [if_neg hc2] at h
        obtain ⟨l, cand, rr, heq, htc⟩ := braceIn_subcand tc rest (acc ++ [c]) d r h
        refine ⟨l, cand, rr, ?_, htc⟩
        rw [← heq]
        simp
end

theorem lazyChainFind_shape {cs cand : List Char} {needles : List (List Char)}
    (h : lazyChainFind cs needles = some cand) :
    ∃ i len, i < cs.length + 1 ∧ len < cs.length + 1 ∧ cand = subL cs i len := by
  rw [lazyChainFind] at h
  obtain ⟨i, hiR, hsome⟩ := List.exists_of_findSome?_eq_some h
  rw [List.mem_range] at hiR
  by_cases hci : charAt cs i = '{'
  swap
  · rw [if_neg hci] at hsome; exact Option.noConfusion hsome
  rw [if_pos hci] at hsome
  cases hq : chainAfter cs (i + 1) needles with
  | none => rw [hq] at hsome; simp at hsome
  | some q =>
    rw [hq] at hsome
    dsimp only at hsome
    cases hj : idxFromL '}' q cs with
    | none => rw [hj] at hsome; simp at hsome
    | some j =>
      rw [hj] at hsome
      dsimp only at hsome
      injection hsome with h'
      have hjl : j < cs.length := by
        rw [idxFromL] at hj
        cases hk : idxOfL '}' (cs.drop q) with
        | none => rw [hk] at hj; cases hj
        | some k =>
          rw [hk] at hj
          simp only [Option.map_some'] at hj
          injection hj with hj'
          have := idxOfL_lt hk
          rw [List.length_drop] at this
          omega
      exact ⟨i, j + 1 - i, by omega, by omega, h'.symm⟩

/-- C8: both extractors are total functions of the raw text, and they
degrade rather than propagate failure: whenever no slice of the text is
accepted by `json.loads` as a JSON array, `parse_competitors_response`
returns the empty list, and whenever no slice is accepted as a JSON
object, `parse_research_response` returns `None` (every candidate each
strategy examines is a slice of the text, so every strategy fails). -/
theorem c8_extractors_degrade (s : String)
    (hA : ∀ i < s.data.length + 1, ∀ len < s.data.length + 1,
      isArrLoads (subL s.data i len) = false)
    (hO : ∀ i < s.data.length + 1, ∀ len < s.data.length + 1,
      isObjLoads (subL s.data i len) = false) :
    parse_competitors_response s = [] ∧ parse_research_response s = none := by
  have harr : ∀ cand : List Char,
      (∃ i len, i < s.data.length + 1 ∧ len < s.data.length + 1 ∧ cand = subL s.data i len) →
      ∀ xs, jsonLoadsL cand ≠ some (.arr xs) := by
    rintro cand ⟨i, len, hi, hlen, rfl⟩ xs hcon
    have := hA i hi len hlen
    rw [isArrLoads, hcon] at this
    cases this
  have hobj : ∀ cand : List Char,
      (∃ i len, i < s.data.length + 1 ∧ len < s.data.length + 1 ∧ cand = subL s.data i len) →
      ∀ d, jsonLoadsL cand ≠ some (.obj d) := by
    rintro cand ⟨i, len, hi, hlen, rfl⟩ d hcon
    have := hO i hi len hlen
    rw [isObjLoads, hcon] at this
    cases this
  constructor
  · rw [parse_competitors_response]
    have hfen : (match fencedSearch '[' ']' true s.data with
        | some cand =>
          match jsonLoadsL cand with
          | some (.arr xs) => cleanLoop xs
          | _ => ([] : List Candidate)
        | none => ([] : List Candidate)) = [] := by
      cases hf : fencedSearch '[' ']' true s.data with
      | none => rfl
      | some cand =>
        have hshape := fencedSearch_shape (by decide) hf
        cases hl : jsonLoadsL cand with
        | none => simp only [hl]
        | some v =>
          cases v with
          | arr xs => exact absurd hl (harr cand hshape xs)
          | null => simp only [hl]
          | bool b => simp only [hl]
          | num l => simp only [hl]
          | str t => simp only [hl]
          | obj d => simp only [hl]
    cases hsp : firstArraySpan s.data with
    | none => exact hfen
    | some cand =>
      have hshape := firstArraySpan_shape hsp
      cases hl : jsonLoadsL cand with
      | none => simp only [hl]; exact hfen
      | some v =>
        cases v with
        | arr xs => exact absurd hl (harr cand hshape xs)
        | null => simp only [hl]; exact hfen
        | bool b => simp only [hl]; exact hfen
        | num l => simp only [hl]; exact hfen
        | str t => simp only [hl]; exact hfen
        | obj d => simp only [hl]; exact hfen
  · have htryR : ∀ cand : List Char,
        (∃ i len, i < s.data.length + 1 ∧ len < s.data.length + 1 ∧ cand = subL s.data i len) →
        tryResearchCand cand = none := by
      intro cand hsh
      rw [tryResearchCand]
      cases hl : jsonLoadsL cand with
      | none => rfl
      | some v =>
        cases v with
        | obj d => exact absurd hl (hobj cand hsh d)
        | null => rfl
        | bool b => rfl
        | num l => rfl
        | str t => rfl
        | arr xs => rfl
    have htryB : ∀ cand : List Char,
        (∃ i len, i < s.data.length + 1 ∧ len < s.data.length + 1 ∧ cand = subL s.data i len) →
        tryBraceCand cand = none := by
      intro cand hsh
      rw [tryBraceCand]
      cases hl : jsonLoadsL cand with
      | none => rfl
      | some v =>
        cases v with
        | obj d => exact absurd hl (hobj cand hsh d)
        | null => rfl
        | bool b => rfl
        | num l => rfl
        | str t => rfl
        | arr xs => rfl
    have hf1 : (match fencedSearch '\x7b' '\x7d' true s.data with
        | some cand => tryResearchCand cand
        | none => none) = none := by
      cases hf : fencedSearch '\x7b' '\x7d' true s.data with
      | none => rfl
      | some cand => exact htryR cand (fencedSearch_shape (by decide) hf)
    have hf2 : (match fencedSearch '\x7b' '\x7d' false s.data with
        | some cand => tryResearchCand cand
        | none => none) = none := by
      cases hf : fencedSearch '\x7b' '\x7d' false s.data with
      | none => rfl
      | some cand => exact htryR cand (fencedSearch_shape (by decide) hf)
    have hbr : braceTop tryBraceCand s.data 0 = none := by
      cases hb : braceTop tryBraceCand s.data 0 with
      | none => rfl
      | some r =>
        obtain ⟨l, cand, rr, heq, htc⟩ := braceTop_subcand tryBraceCand s.data 0 r hb
        have hsh : ∃ i len, i < s.data.length + 1 ∧ len < s.data.length + 1 ∧
            cand = subL s.data i len := by
          refine ⟨l.length, cand.length, ?_, ?_, subL_of_split heq⟩
          · have : s.data.length = l.length + cand.length + rr.length := by
              rw [heq]; simp; omega
            omega
          · have : s.data.length = l.length + cand.length + rr.length := by
              rw [heq]; simp; omega
            omega
        rw [htryB cand hsh] at htc
        cases htc
    have hpat : ∀ needles ∈ patternNeedles,
        (match lazyChainFind s.data needles with
          | some cand => tryResearchCand cand
          | none => none) = none := by
      intro needles _
      cases hlc : lazyChainFind s.data needles with
      | none => rfl
      | some cand => exact htryR cand (lazyChainFind_shape hlc)
    rw [parse_research_response]
    simp only [hf1, hf2, hbr]
    exact List.findSome?_eq_none_iff.mpr hpat

/-- C8 witness: a refusal text with no JSON anywhere degrades to the empty
list and `None`. -/
theorem c8_extractors_degrade_witness :
    parse_competitors_response "Sorry." = [] ∧ parse_research_response "Sorry." = none :=
  c8_extractors_degrade "Sorry." (by decide) (by decide)

/-! ## Orchestrator loop lemmas -/

/-- The research loop's eligibility test (`views.py:303-304`): no error
entry and a truthy URL. -/
def eligibleComp : SavedCompetitor → Bool
  | .ok _ _ u _ => u ≠ ""
  | .err _ _ _ => false

theorem researchLoop_spec (svc : Service) (llm : String → Except String String) :
    ∀ (saved : List SavedCompetitor) (st : RunSt),
      (researchLoop svc llm saved st).2.2 = st ∧
      (researchLoop svc llm saved st).2.1.length = (saved.filter eligibleComp).length ∧
      ∀ r ∈ (researchLoop svc llm saved st).2.1, r.statusOf = "error" := by
  intro saved
  induction saved with
  | nil =>
    intro st
    exact ⟨rfl, rfl, by intro r hr; cases hr⟩
  | cons comp rest ih =>
    intro st
    cases comp with
    | err n u m =>
      obtain ⟨ih1, ih2, ih3⟩ := ih st
      simp only [researchLoop]
      refine ⟨ih1, ?_, ih3⟩
      rw [ih2]
      simp [List.filter_cons, eligibleComp]
    | ok cid name curl b =>
      by_cases hurl : curl = ""
      · obtain ⟨ih1, ih2, ih3⟩ := ih st
        simp only [researchLoop, if_pos hurl]
        refine ⟨ih1, ?_, ih3⟩
        rw [ih2]
        simp [List.filter_cons, eligibleComp, hurl]
      · obtain ⟨ih1, ih2, ih3⟩ := ih st
        rcases hrl : researchLoop svc llm rest st with ⟨revs, rs, st'⟩
        rw [hrl] at ih1 ih2 ih3
        simp only [researchLoop, if_neg hurl, hrl]
        refine ⟨ih1, ?_, ?_⟩
        · simp only at ih2
          simp [List.filter_cons, eligibleComp, hurl, ih2]
        · intro r hr
          rcases List.mem_cons.mp hr with h | h
          · subst h; rfl
          · exact ih3 r h

theorem saveLoop_spec (svc : Service) :
    ∀ (l : List Candidate) (db : DbSt),
      (saveLoop svc l db).2.1.length = (l.filter (fun c => pyStrip c.name ≠ "")).length ∧
      ((saveLoop svc l db).1.filter Event.isCompetitor).length =
        (l.filter (fun c => pyStrip c.name ≠ "")).length := by
  intro l
  induction l with
  | nil => intro db; exact ⟨rfl, rfl⟩
  | cons c t ih =>
    intro db
    by_cases hname : pyStrip c.name = ""
    · obtain ⟨ih1, ih2⟩ := ih db
      simp only [saveLoop, if_pos hname]
      constructor
      · rw [ih1]; simp [List.filter_cons, hname]
      · rw [ih2]; simp [List.filter_cons, hname]
    · rcases hob : saveOneBody svc c db with ⟨entry, idq, db'⟩
      obtain ⟨ih1, ih2⟩ := ih db'
      rcases hrl : saveLoop svc t db' with ⟨evs, saved, ids, db4⟩
      rw [hrl] at ih1 ih2
      simp only [saveLoop, if_neg hname, hob, hrl]
      constructor
      · simp only at ih1
        simp [List.filter_cons, hname, ih1]
      · simp only at ih2
        simp [List.filter_cons, hname, Event.isCompetitor, ih2]

/-! ## C10 — silent skipping of blank-name candidates -/

/-- C10: for every store behavior, the save loop emits one `competitor`
event and one `saved_competitors` entry per candidate with a non-blank
stripped name and nothing for the rest; consequently (concrete run) a
response announcing two candidates where one name is whitespace-only
produces `competitors_list` with total 2 but only one `competitor` event
and a `complete` event whose `total_found` is 1. -/
theorem c10_blank_names_skipped :
    (∀ (svc : Service) (l : List Candidate) (db : DbSt),
      (saveLoop svc l db).2.1.length = (l.filter (fun c => pyStrip c.name ≠ "")).length ∧
      ((saveLoop svc l db).1.filter Event.isCompetitor).length =
        (l.filter (fun c => pyStrip c.name ≠ "")).length) ∧
    stream_competitors_research realService
      (fun _ => .ok "[\x7b\"name\":\"A\",\"url\":\"https://a.com\"\x7d, \x7b\"name\":\"  \",\"url\":\"https://b.com\"\x7d]")
      "https://acme.test" ⟨⟨[], [], [], [], 0⟩, 0, []⟩ =
    ([Event.status "Checking database for existing company...",
      Event.status "Company not found. Finding competitors...",
      Event.competitors_list 2,
      Event.competitor (.ok "cid1" "A" "https://a.com" true),
      Event.statusTotal "Starting competitor research..." 1,
      Event.research_status "cid1" "A" "checking",
      Event.competitor_research (.rerror "cid1" "A" attributeErrMsg),
      Event.complete "https://acme.test" 1 1 [.rerror "cid1" "A" attributeErrMsg]],
     ⟨⟨[⟨"cid0", "Acme", some "https://acme.test", ["cid1"]⟩,
        ⟨"cid1", "A", some "https://a.com", []⟩], [], [], [], 2⟩,
      1, [("cid0", ["cid1"])]⟩) := by
  constructor
  · intro svc l db
    exact saveLoop_spec svc l db
  · decide

/-! ## C4 — set_competitor_ids is guarded, not unconditional -/

/-- C4 counterexample: a run in which the generation capability answers
`Sorry.` (no candidates) against an empty store reaches the persist step
and succeeds — the origin company is created with the URL-derived name
`Acme` — yet `update_company_competitor_ids` is never called, because the
guard `if main_company_id and competitor_ids:` (`views.py:230`) skips it
when the collected id list is empty. -/
theorem c4_empty_id_list_skips_set_competitor_ids :
    (find_and_save_competitors realService (fun _ => .ok "Sorry.") "https://acme.test" none
        ⟨⟨[], [], [], [], 0⟩, 0, []⟩).2.1 = .ok [] ∧
    (find_and_save_competitors realService (fun _ => .ok "Sorry.") "https://acme.test" none
        ⟨⟨[], [], [], [], 0⟩, 0, []⟩).2.2.db.companies.map CompanyRow.name = ["Acme"] ∧
    (find_and_save_competitors realService (fun _ => .ok "Sorry.") "https://acme.test" none
        ⟨⟨[], [], [], [], 0⟩, 0, []⟩).2.2.updateCidCalls = [] := by
  decide

/-- C4 (amended): after the save loop completes, the run succeeds with the
saved entries, and `update_company_competitor_ids` is called — with the
full collected id list — exactly when the ensured main-company id is
truthy AND the collected id list is non-empty; otherwise (in particular on
every run whose collected id list is empty) the call is skipped. -/
theorem c4_set_competitor_ids_guarded (svc : Service)
    (llm : String → Except String String) (url : String) (mid0 : Option String)
    (st : RunSt) (r : String) (mid : Option String) (db1 : DbSt)
    (evs : List Event) (saved : List SavedCompetitor) (ids : List String) (db2 : DbSt)
    (hllm : llm (competitorPrompt url) = .ok r)
    (hmain : ensureMain svc url mid0 st.db = .ok (mid, db1))
    (hloop : saveLoop svc (parse_competitors_response r) db1 = (evs, saved, ids, db2)) :
    (find_and_save_competitors svc llm url mid0 st).2.1 = .ok saved ∧
    (find_and_save_competitors svc llm url mid0 st).2.2.updateCidCalls =
      (if pyTruthyOpt mid ∧ ids ≠ [] then st.updateCidCalls ++ [(mid.getD "", ids)]
       else st.updateCidCalls) := by
  simp only [find_and_save_competitors, hllm]
  rw [hmain]
  dsimp only
  rw [hloop]
  dsimp only
  by_cases hc : pyTruthyOpt mid ∧ ids ≠ []
  · rw [if_pos hc, if_pos hc]
    refine ⟨rfl, ?_⟩
    cases svc.update_company_competitor_ids (mid.getD "") ids db2 with
    | ok p => rfl
    | error e => rfl
  · rw [if_neg hc, if_neg hc]
    exact ⟨rfl, rfl⟩

/-- C4 witness: the amended statement instantiated on the no-candidate run
over the empty store, where the guard evaluates to the skip branch. -/
theorem c4_set_competitor_ids_guarded_witness :
    (find_and_save_competitors realService (fun _ => .ok "Sorry.") "https://acme.test" none
        ⟨⟨[], [], [], [], 0⟩, 0, []⟩).2.1 = .ok [] ∧
    (find_and_save_competitors realService (fun _ => .ok "Sorry.") "https://acme.test" none
        ⟨⟨[], [], [], [], 0⟩, 0, []⟩).2.2.updateCidCalls =
      (if pyTruthyOpt (some "cid0") ∧ ([] : List String) ≠ [] then
         ([] : List (String × List String)) ++ [((some "cid0").getD "", ([] : List String))]
       else ([] : List (String × List String))) :=
  c4_set_competitor_ids_guarded realService (fun _ => .ok "Sorry.") "https://acme.test"
    none ⟨⟨[], [], [], [], 0⟩, 0, []⟩ "Sorry." (some "cid0")
    ⟨[⟨"cid0", "Acme", some "https://acme.test", []⟩], [], [], [], 1⟩
    [] [] [] ⟨[⟨"cid0", "Acme", some "https://acme.test", []⟩], [], [], [], 1⟩
    rfl (by decide) (by decide)

/-! ## C9 — per-item faults are isolated -/

theorem getLastSome {α : Type} (l : List α) (c : α) : (l ++ [c]).getLast? = some c := by
  rw [List.getLast?_concat]

theorem afterDiscovery_getLast (svc : Service) (llm : String → Except String String)
    (url : String) (saved : List SavedCompetitor) (evs : List Event) (st : RunSt) :
    (afterDiscovery svc llm url saved evs st).1.getLast? =
      some (Event.complete url saved.length (okCount saved)
        (researchLoop svc llm saved st).2.1) := by
  rw [afterDiscovery]
  rcases hr : researchLoop svc llm saved st with ⟨a, b, c⟩
  dsimp only
  rw [List.getLast?_concat]

/-- C9: for any service — its per-item operations may fault arbitrarily —
and any run that passes the initial lookup (company not yet stored) and
whose run-level steps succeed, the save loop still yields one entry per
non-blank candidate, the research loop yields one error-tagged result per
eligible saved entry, and the `complete` event is still the last event of
the stream. -/
theorem c9_per_item_faults_isolated (svc : Service)
    (llm : String → Except String String) (url : String) (st0 : RunSt)
    (db1 : DbSt) (r : String) (mid : Option String) (db2 : DbSt)
    (hget : svc.get_company_by_url url st0.db = .ok (none, db1))
    (hllm : llm (competitorPrompt url) = .ok r)
    (hmain : ensureMain svc url none db1 = .ok (mid, db2)) :
    ∃ saved results,
      (stream_competitors_research svc llm url st0).1.getLast? =
        some (.complete url saved.length (okCount saved) results) ∧
      saved.length =
        ((parse_competitors_response r).filter (fun c => pyStrip c.name ≠ "")).length ∧
      results.length = (saved.filter eligibleComp).length ∧
      ∀ x ∈ results, x.statusOf = "error" := by
  rcases hloop : saveLoop svc (parse_competitors_response r) db2 with ⟨evsL, saved, ids, db3⟩
  have hslen := (saveLoop_spec svc (parse_competitors_response r) db2).1
  rw [hloop] at hslen
  have hfs : ∃ st3, find_and_save_competitors svc llm url none
      { db := db1, llmCalls := st0.llmCalls, updateCidCalls := st0.updateCidCalls } =
      (Event.competitors_list (parse_competitors_response r).length :: evsL,
        .ok saved, st3) := by
    simp only [find_and_save_competitors, hllm]
    rw [hmain]
    dsimp only
    rw [hloop]
    dsimp only
    exact ⟨_, rfl⟩
  obtain ⟨st3, hfs⟩ := hfs
  obtain ⟨hrl1, hrl2, hrl3⟩ := researchLoop_spec svc llm saved st3
  rcases hrl : researchLoop svc llm saved st3 with ⟨revs, results, st4⟩
  rw [hrl] at hrl2 hrl3
  have hstream : stream_competitors_research svc llm url st0 =
      afterDiscovery svc llm url saved
        (Event.status "Checking database for existing company..." ::
         Event.status "Company not found. Finding competitors..." ::
         (Event.competitors_list (parse_competitors_response r).length :: evsL)) st3 := by
    simp only [stream_competitors_research, hget]
    rw [hfs]
  refine ⟨saved, results, ?_, hslen, hrl2, hrl3⟩
  rw [hstream, afterDiscovery_getLast, hrl]

/-- A service whose per-item operations fault on every call (lookups by
name and updates raise; creation returns no data), while the run-level
steps still succeed. -/
def faultyService : Service where
  get_company_by_url := fun _ db => .ok (none, db)
  find_company_by_name := fun _ _ => .error "boom"
  create_company := fun _ _ db => .ok (none, db)
  update_company := fun _ _ _ _ => .error "boom"
  update_company_competitor_ids := fun _ _ _ => .error "boom"
  get_competitors_by_ids := fun _ db => .ok ([], db)

/-- C9 witness: the statement instantiated on the all-faulting service with
a one-candidate discovery answer; its single save fault becomes an error
entry and the run still completes. -/
theorem c9_per_item_faults_isolated_witness :
    ∃ saved results,
      (stream_competitors_research faultyService
          (fun _ => .ok "[\x7b\"name\": \"Zed\", \"website_url\": \"https://zed.io\"\x7d]")
          "https://acme.test" ⟨⟨[], [], [], [], 0⟩, 0, []⟩).1.getLast? =
        some (.complete "https://acme.test" saved.length (okCount saved) results) ∧
      saved.length =
        ((parse_competitors_response
            "[\x7b\"name\": \"Zed\", \"website_url\": \"https://zed.io\"\x7d]").filter
          (fun c => pyStrip c.name ≠ "")).length ∧
      results.length = (saved.filter eligibleComp).length ∧
      ∀ x ∈ results, x.statusOf = "error" :=
  c9_per_item_faults_isolated faultyService
    (fun _ => .ok "[\x7b\"name\": \"Zed\", \"website_url\": \"https://zed.io\"\x7d]")
    "https://acme.test" ⟨⟨[], [], [], [], 0⟩, 0, []⟩ ⟨[], [], [], [], 0⟩
    "[\x7b\"name\": \"Zed\", \"website_url\": \"https://zed.io\"\x7d]"
    none ⟨[], [], [], [], 0⟩ rfl rfl rfl

/-! ## C5 — cached competitors skip the generation capability -/

/-- The `saved_competitors` list built from stored rows on the cached
path (`views.py:264-274`). -/
def cachedSaved (db : DbSt) (row : CompanyRow) : List SavedCompetitor :=
  (db.companies.filter (fun c => row.competitor_ids.contains c.id)).map
    (fun comp => SavedCompetitor.ok comp.id comp.name (comp.website_url.getD "") false)

/-- C5: when the input URL resolves to a stored company with a non-empty
competitor-id list, the whole stream consists of the two status events,
`competitors_list` and the `competitor` events built from the stored rows,
followed by the research phase and the `complete` event — and the run
makes zero calls to the generation capability (the final call counter is
still zero). -/
theorem c5_cached_discovery_no_llm (db : DbSt) (url : String)
    (llm : String → Except String String) (row : CompanyRow)
    (hfind : db.companies.find? (fun c => c.website_url = some url) = some row)
    (hids : row.competitor_ids ≠ []) :
    ∃ researchEvents results,
      stream_competitors_research realService llm url ⟨db, 0, []⟩ =
        ((Event.status "Checking database for existing company..." ::
          Event.status ("Found existing company with " ++ toString row.competitor_ids.length
            ++ " competitors in database...") ::
          Event.competitors_list (cachedSaved db row).length ::
            (cachedSaved db row).map Event.competitor) ++
          Event.statusTotal "Starting competitor research..." (cachedSaved db row).length ::
            researchEvents ++
          [Event.complete url (cachedSaved db row).length (okCount (cachedSaved db row)) results],
         ⟨db, 0, []⟩) ∧
      (stream_competitors_research realService llm url ⟨db, 0, []⟩).2.llmCalls = 0 := by
  have hsvc1 : realService.get_company_by_url url db = .ok (some row, db) := by
    simp only [realService]
    rw [hfind]
  have hsvc2 : realService.get_competitors_by_ids row.competitor_ids db =
      .ok (db.companies.filter (fun c => row.competitor_ids.contains c.id), db) := by
    simp only [realService]
    rw [if_neg hids]
  obtain ⟨hst, _, _⟩ := researchLoop_spec realService llm (cachedSaved db row) ⟨db, 0, []⟩
  rcases hrl : researchLoop realService llm (cachedSaved db row) ⟨db, 0, []⟩
    with ⟨revs, results, st'⟩
  rw [hrl] at hst
  simp only at hst
  have heq : stream_competitors_research realService llm url ⟨db, 0, []⟩ =
      ((Event.status "Checking database for existing company..." ::
        Event.status ("Found existing company with " ++ toString row.competitor_ids.length
          ++ " competitors in database...") ::
        Event.competitors_list (cachedSaved db row).length ::
          (cachedSaved db row).map Event.competitor) ++
        Event.statusTotal "Starting competitor research..." (cachedSaved db row).length ::
          revs ++
        [Event.complete url (cachedSaved db row).length (okCount (cachedSaved db row)) results],
       ⟨db, 0, []⟩) := by
    rw [stream_competitors_research]
    simp only [hsvc1]
    rw [if_pos hids]
    simp only [hsvc2]
    rw [afterDiscovery]
    have hfold : (db.companies.filter (fun c => row.competitor_ids.contains c.id)).map
        (fun comp => SavedCompetitor.ok comp.id comp.name (comp.website_url.getD "") false)
        = cachedSaved db row := rfl
    simp only [hfold, hrl, hst]
  exact ⟨revs, results, heq, by rw [heq]⟩

/-- C5 witness: the cached-discovery statement instantiated on a concrete
two-company store. -/
theorem c5_cached_discovery_no_llm_witness :
    ∃ researchEvents results,
      stream_competitors_research realService (fun _ => .ok "unused") "https://acme.test"
          ⟨⟨[⟨"a1", "Acme", some "https://acme.test", ["b1"]⟩,
             ⟨"b1", "Beta", some "https://beta.test", []⟩], [], [], [], 5⟩, 0, []⟩ =
        ((Event.status "Checking database for existing company..." ::
          Event.status ("Found existing company with " ++ toString ["b1"].length
            ++ " competitors in database...") ::
          Event.competitors_list (cachedSaved
            ⟨[⟨"a1", "Acme", some "https://acme.test", ["b1"]⟩,
              ⟨"b1", "Beta", some "https://beta.test", []⟩], [], [], [], 5⟩
            ⟨"a1", "Acme", some "https://acme.test", ["b1"]⟩).length ::
            (cachedSaved
              ⟨[⟨"a1", "Acme", some "https://acme.test", ["b1"]⟩,
                ⟨"b1", "Beta", some "https://beta.test", []⟩], [], [], [], 5⟩
              ⟨"a1", "Acme", some "https://acme.test", ["b1"]⟩).map Event.competitor) ++
          Event.statusTotal "Starting competitor research..." (cachedSaved
            ⟨[⟨"a1", "Acme", some "https://acme.test", ["b1"]⟩,
              ⟨"b1", "Beta", some "https://beta.test", []⟩], [], [], [], 5⟩
            ⟨"a1", "Acme", some "https://acme.test", ["b1"]⟩).length ::
            researchEvents ++
          [Event.complete "https://acme.test" (cachedSaved
            ⟨[⟨"a1", "Acme", some "https://acme.test", ["b1"]⟩,
              ⟨"b1", "Beta", some "https://beta.test", []⟩], [], [], [], 5⟩
            ⟨"a1", "Acme", some "https://acme.test", ["b1"]⟩).length
            (okCount (cachedSaved
              ⟨[⟨"a1", "Acme", some "https://acme.test", ["b1"]⟩,
                ⟨"b1", "Beta", some "https://beta.test", []⟩], [], [], [], 5⟩
              ⟨"a1", "Acme", some "https://acme.test", ["b1"]⟩)) results],
         ⟨⟨[⟨"a1", "Acme", some "https://acme.test", ["b1"]⟩,
            ⟨"b1", "Beta", some "https://beta.test", []⟩], [], [], [], 5⟩, 0, []⟩) ∧
      (stream_competitors_research realService (fun _ => .ok "unused") "https://acme.test"
          ⟨⟨[⟨"a1", "Acme", some "https://acme.test", ["b1"]⟩,
             ⟨"b1", "Beta", some "https://beta.test", []⟩], [], [], [], 5⟩, 0, []⟩).2.llmCalls = 0 :=
  c5_cached_discovery_no_llm
    ⟨[⟨"a1", "Acme", some "https://acme.test", ["b1"]⟩,
      ⟨"b1", "Beta", some "https://beta.test", []⟩], [], [], [], 5⟩
    "https://acme.test" (fun _ => .ok "unused")
    ⟨"a1", "Acme", some "https://acme.test", ["b1"]⟩ (by decide) (by decide)

/-- C3 witness: a concrete prose-wrapped array round-trips through the
amended statement. -/
theorem c3_extracts_first_array_witness :
    parse_competitors_response ("Here you go: " ++ "[\x7b\"name\":\" A \",\"url\":\"https://a.com\"\x7d]" ++ " bye") =
      (JsonList.cons (.obj (.cons "name" (.str " A ")
        (.cons "url" (.str "https://a.com") .nil))) .nil).toList.filterMap cleanOne := by
  exact c3_extracts_first_array "Here you go: " "[\x7b\"name\":\" A \",\"url\":\"https://a.com\"\x7d]" " bye"
    ("\x7b\"name\":\" A \",\"url\":\"https://a.com\"\x7d".data)
    (JsonList.cons (.obj (.cons "name" (.str " A ")
      (.cons "url" (.str "https://a.com") .nil))) .nil)
    (by decide) (by decide) (by decide) (by rfl)

end CompRes
